import Mathlib

/-! Verification of the asynchronous logging pipeline.

Shallow embedding of `MPMCQueue.hpp`, `Logger.hpp`, `Sink.hpp` and the poll
loop of `Server.hpp`.  Every stateful member function becomes a function on an
explicit state record; blocking calls return an outcome that says whether the
caller is still waiting; calls into the environment (clock, `file_.open`,
`send`, `read`, `accept`) take their results as arguments.

Definitions come first, theorems after them.
-/

set_option autoImplicit false

/-! ## MPMCQueue.hpp -/

/-- Width of `size_t` on the 64-bit targets the code is built for. -/
def SIZE_WIDTH : Nat := 64

/-- Number of values of a `size_t`. -/
def SIZE_MOD : Nat := 2 ^ SIZE_WIDTH

/-- Pre-decrement `--n` of a `size_t` (wraps from 0 to the largest value). -/
def sizeDec (n : Nat) : Nat := if n = 0 then SIZE_MOD - 1 else n - 1

/-- Pre-increment `++n` of a `size_t` (wraps from the largest value to 0). -/
def sizeInc (n : Nat) : Nat := if n + 1 = SIZE_MOD then 0 else n + 1

/-- Data members of `MPMCQueue<T>` (the mutexes and condition variables have no
state of their own in the embedding). -/
structure MPMCQueue (T : Type) where
  queueData : List T
  capacity : Nat
  freeCount : Nat
  stop : Bool
deriving Repr

namespace MPMCQueue

variable {T : Type}

/-- Constructor `MPMCQueue(size_t capacity)`. -/
def mk0 (capacity : Nat) : MPMCQueue T :=
  { queueData := [], capacity := capacity, freeCount := capacity, stop := false }

/-- Outcome of the first critical section of `push` (lines 18-23). -/
inductive SlotOutcome (T : Type) where
  /-- The wait predicate `freeCount_ > 0 || stop_` is false: the caller stays blocked. -/
  | blocked : SlotOutcome T
  /-- `stop_` is set: `push` returns at line 21. -/
  | stopped : SlotOutcome T
  /-- A slot was consumed (`--freeCount_`). -/
  | acquired : MPMCQueue T → SlotOutcome T

/-- Lines 18-23 of `push`: wait for `freeCount_ > 0 || stop_`, return when
stopped, otherwise `--freeCount_` (on `size_t`). -/
def takeSlot (q : MPMCQueue T) : SlotOutcome T :=
  if 0 < q.freeCount || q.stop then
    if q.stop then .stopped
    else .acquired { q with freeCount := sizeDec q.freeCount }
  else .blocked

/-- Lines 26-29 of `push`: `queueData_.push(item)` under the data mutex. -/
def appendData (q : MPMCQueue T) (item : T) : MPMCQueue T :=
  { q with queueData := q.queueData ++ [item] }

/-- `MPMCQueue::push` run without interference: `none` when the caller blocks,
otherwise the state after the call has returned. -/
def push (q : MPMCQueue T) (item : T) : Option (MPMCQueue T) :=
  match takeSlot q with
  | .blocked => none
  | .stopped => some q
  | .acquired q1 => some (appendData q1 item)

/-- Outcome of the first critical section of `pop` (lines 35-43). -/
inductive FrontOutcome (T : Type) where
  /-- The wait predicate `!queueData_.empty() || stop_` is false. -/
  | blocked : FrontOutcome T
  /-- The FIFO is empty: `pop` returns `false` at line 39. -/
  | empty : FrontOutcome T
  /-- The front element was copied to `item` and removed from the FIFO. -/
  | took : T → MPMCQueue T → FrontOutcome T

/-- Lines 35-43 of `pop`. -/
def takeFront (q : MPMCQueue T) : FrontOutcome T :=
  if !q.queueData.isEmpty || q.stop then
    match q.queueData with
    | [] => .empty
    | x :: rest => .took x { q with queueData := rest }
  else .blocked

/-- Lines 46-49 of `pop`: `++freeCount_` (on `size_t`) under the free-slot mutex. -/
def releaseSlot (q : MPMCQueue T) : MPMCQueue T :=
  { q with freeCount := sizeInc q.freeCount }

/-- What a call of `pop(T& item)` did. -/
inductive PopOutcome (T : Type) where
  /-- The caller is still waiting on `condNotEmpty_`. -/
  | blocked : PopOutcome T
  /-- The call returned `ret`; `item` is the value of the reference argument
  and `q` the queue afterwards. -/
  | returned (ret : Bool) (item : T) (q : MPMCQueue T) : PopOutcome T

/-- `MPMCQueue::pop` run without interference; `item` is the value the
reference argument holds before the call. -/
def pop (q : MPMCQueue T) (item : T) : PopOutcome T :=
  match takeFront q with
  | .blocked => .blocked
  | .empty => .returned false item q
  | .took x q1 => .returned true x (releaseSlot q1)

/-- `MPMCQueue::stop`. -/
def doStop (q : MPMCQueue T) : MPMCQueue T :=
  { q with stop := true }

/-- `MPMCQueue::size`. -/
def size (q : MPMCQueue T) : Nat :=
  q.queueData.length

/-- Calls `pop` up to `n` times in a row and collects the items of the calls
that returned `true`; stops at the first call that blocks or returns `false`. -/
def popMany : Nat → MPMCQueue T → T → List T × MPMCQueue T
  | 0, q, _ => ([], q)
  | n + 1, q, item =>
    match pop q item with
    | .returned true x q1 => let r := popMany n q1 x; (x :: r.1, r.2)
    | .returned false _ q1 => ([], q1)
    | .blocked => ([], q)

end MPMCQueue

/-! ### Interleaved execution of `push` and `pop`

Each `push` is two atomic steps (one per mutex), each `pop` likewise.  Between
its two steps a producer holds the item it is about to append; a consumer
holds nothing but still owes the release of one slot. -/

/-- A queue together with the threads that are between the two critical
sections of `push` or `pop`. -/
structure QueueSystem (T : Type) where
  q : MPMCQueue T
  /-- Items of producers that passed line 23 and have not reached line 27. -/
  pushing : List T
  /-- Number of consumers that passed line 43 and have not reached line 47. -/
  releasing : Nat

/-- One atomic step of some thread. -/
inductive QueueEvent (T : Type) where
  /-- A producer runs lines 18-23 for `item`. -/
  | pushTake (item : T) : QueueEvent T
  /-- The producer whose item is at position `k` of `pushing` runs lines 26-29. -/
  | pushAppend (k : Nat) : QueueEvent T
  /-- A consumer runs lines 35-43. -/
  | popFront : QueueEvent T
  /-- A consumer that removed an item runs lines 46-49. -/
  | popRelease : QueueEvent T
  /-- Some thread calls `stop()`. -/
  | callStop : QueueEvent T

namespace QueueSystem

variable {T : Type}

/-- System right after construction of the queue. -/
def init (capacity : Nat) : QueueSystem T :=
  { q := MPMCQueue.mk0 capacity, pushing := [], releasing := 0 }

/-- A producer runs lines 18-23 for `item`; a blocked or stopped producer
changes nothing. -/
def pushTake (s : QueueSystem T) (item : T) : QueueSystem T :=
  match s.q.takeSlot with
  | .acquired q1 => { s with q := q1, pushing := s.pushing ++ [item] }
  | .stopped => s
  | .blocked => s

/-- The producer holding the item at position `k` of `pushing` runs lines 26-29. -/
def pushAppend (s : QueueSystem T) (k : Nat) : QueueSystem T :=
  match s.pushing.get? k with
  | some item => { s with q := s.q.appendData item, pushing := s.pushing.eraseIdx k }
  | none => s

/-- A consumer runs lines 35-43; a consumer that blocks or returns `false`
changes nothing. -/
def popFront (s : QueueSystem T) : QueueSystem T :=
  match s.q.takeFront with
  | .took _ q1 => { s with q := q1, releasing := s.releasing + 1 }
  | .empty => s
  | .blocked => s

/-- A consumer that removed an item runs lines 46-49. -/
def popRelease (s : QueueSystem T) : QueueSystem T :=
  match s.releasing with
  | 0 => s
  | n + 1 => { s with q := s.q.releaseSlot, releasing := n }

/-- Effect of one event; an event whose thread is blocked, or that names a
thread that does not exist, leaves the system as it is. -/
def step (s : QueueSystem T) : QueueEvent T → QueueSystem T
  | .pushTake item => s.pushTake item
  | .pushAppend k => s.pushAppend k
  | .popFront => s.popFront
  | .popRelease => s.popRelease
  | .callStop => { s with q := s.q.doStop }

/-- State reached from `s` by a schedule of events. -/
def run (s : QueueSystem T) (evs : List (QueueEvent T)) : QueueSystem T :=
  evs.foldl step s

/-- Slot accounting: every slot is free, held by a producer, occupied by an
item, or owed by a consumer. -/
def Balanced (s : QueueSystem T) : Prop :=
  s.q.freeCount + s.pushing.length + s.q.queueData.length + s.releasing = s.q.capacity

end QueueSystem

/-! ## Logger.hpp -/

/-- Severity `enum class LogLevel`, in declaration order. -/
inductive LogLevel where
  | TRACE | DEBUG | INFO | WARN | ERROR | FATAL
deriving DecidableEq, Repr

namespace LogLevel

/-- Underlying value of the enumerator; `<` on `LogLevel` compares these. -/
def toNat : LogLevel → Nat
  | TRACE => 0
  | DEBUG => 1
  | INFO => 2
  | WARN => 3
  | ERROR => 4
  | FATAL => 5

/-- The table `levelStr` of `formatMessage`. -/
def levelStr : LogLevel → String
  | TRACE => "TRACE"
  | DEBUG => "DEBUG"
  | INFO => "INFO"
  | WARN => "WARN"
  | ERROR => "ERROR"
  | FATAL => "FATAL"

end LogLevel

/-- What `formatMessage` reads from the system clock: the local time rendered by
`std::put_time(&tm, "%F %T")` and the millisecond part `ms.count()`. -/
structure ClockReading where
  stamp : String
  millis : Nat

/-- Output of `std::setw(3) << std::setfill('0') << n`: decimal digits, padded
on the left with `'0'` to width 3. -/
def pad3 (n : Nat) : String :=
  let d := toString n
  String.mk (List.replicate (3 - d.length) '0') ++ d

/-- A sink as the logger sees it: the lines its `write` has received so far. -/
structure SinkLog where
  lines : List String
deriving DecidableEq, Repr

/-- `Sink::write` seen from the logger. -/
def SinkLog.write (s : SinkLog) (msg : String) : SinkLog :=
  { lines := s.lines ++ [msg] }

/-- Calls that `Logger::log` makes on its collaborators, in program order. -/
inductive LogEffect where
  /-- `sinks_[idx]->write(line)`. -/
  | sinkWrite (idx : Nat) (line : String) : LogEffect
  /-- `queue_.push(line)`. -/
  | queuePush (line : String) : LogEffect
deriving DecidableEq, Repr

/-- Data members of `Logger`.  The worker thread is not part of the state; only
the flag `asyncRunning_` that `log` reads is. -/
structure Logger where
  sinks : List SinkLog
  level : LogLevel
  queue : MPMCQueue String
  asyncRunning : Bool

namespace Logger

/-- Freshly constructed logger: no sinks, level `TRACE`, queue of the default
capacity 1024, synchronous. -/
def mk0 : Logger :=
  { sinks := [], level := .TRACE, queue := MPMCQueue.mk0 1024, asyncRunning := false }

/-- `Logger::addSink`. -/
def addSink (lg : Logger) (sink : SinkLog) : Logger :=
  { lg with sinks := lg.sinks ++ [sink] }

/-- `Logger::setLevel`. -/
def setLevel (lg : Logger) (level : LogLevel) : Logger :=
  { lg with level := level }

/-- `Logger::formatMessage`: `[stamp.mmm][LEVEL] msg`. -/
def formatMessage (now : ClockReading) (level : LogLevel) (msg : String) : String :=
  "[" ++ now.stamp ++ "." ++ pad3 now.millis ++ "]" ++ "[" ++ level.levelStr ++ "] " ++ msg

/-- The loop `for (auto& sink : sinks_) sink->write(msg)`; `idx` is the position
of the first sink of the list in `sinks_`. -/
def fanOut (msg : String) : List SinkLog → Nat → List SinkLog × List LogEffect
  | [], _ => ([], [])
  | s :: rest, idx =>
    let r := fanOut msg rest (idx + 1)
    (s.write msg :: r.1, LogEffect.sinkWrite idx msg :: r.2)

/-- `Logger::log`, with `msg` the result of `std::format(fmt, args...)`.
Returns the logger after the call and the calls made on sinks and queue;
`none` when the caller is blocked inside `queue_.push`. -/
def log (lg : Logger) (now : ClockReading) (level : LogLevel) (msg : String) :
    Option (Logger × List LogEffect) :=
  if level.toNat < lg.level.toNat then some (lg, [])
  else
    let finalMsg := formatMessage now level msg
    if lg.asyncRunning then
      match lg.queue.push finalMsg with
      | none => none
      | some q => some ({ lg with queue := q }, [LogEffect.queuePush finalMsg])
    else
      let r := fanOut finalMsg lg.sinks 0
      some ({ lg with sinks := r.1 }, r.2)

end Logger

/-! ## Sink.hpp: FileSink -/

/-- Largest value of an `int` (32 bits). -/
def INT_MAX : Int := 2147483647

/-- Pre-increment `++n` of an `int`.  At `INT_MAX` the C++ operation overflows,
which the language leaves undefined; the model takes the wrapped value, and
every statement about an incremented index carries the bound
`n < INT_MAX`. -/
def intInc (n : Int) : Int := if n = INT_MAX then -2147483648 else n + 1

/-- The `std::ofstream file_`: whether it is open, the path it was opened on and
the bytes written through it since (the file is truncated on open).  Output
to an open stream is taken to succeed. -/
structure OfStream where
  isOpen : Bool
  path : String
  written : String
deriving DecidableEq, Repr

namespace OfStream

/-- A default-constructed stream. -/
def closed : OfStream := { isOpen := false, path := "", written := "" }

/-- `file_.close()`. -/
def close (f : OfStream) : OfStream := { f with isOpen := false }

/-- A stream freshly opened on `path`, the file truncated. -/
def openTrunc (path : String) : OfStream := { isOpen := true, path := path, written := "" }

/-- `file_.open(path, std::ios::out | std::ios::trunc)`; `ok` says whether the
file system lets the file be opened.  On a stream that is already open the
call fails and the stream stays on its file; on a closed stream it opens
`path` when `ok`, and otherwise fails and leaves the stream closed. -/
def reopen (f : OfStream) (path : String) (ok : Bool) : OfStream :=
  if f.isOpen then f
  else if ok then openTrunc path
  else f

/-- `file_.tellp()`: the write position, `-1` on a stream that is not open. -/
def tellp (f : OfStream) : Int :=
  if f.isOpen then (f.written.utf8ByteSize : Int) else -1

/-- `file_ << msg << std::endl`; output to a stream that is not open is lost. -/
def putLine (f : OfStream) (msg : String) : OfStream :=
  if f.isOpen then { f with written := f.written ++ msg ++ "\n" } else f

end OfStream

/-- Data members of `FileSink`.  `fileIndex` is an `int`. -/
structure FileSink where
  basename : String
  maxSize : Nat
  maxFiles : Nat
  file : OfStream
  currentDate : String
  fileIndex : Int
  recentFiles : List String
deriving DecidableEq, Repr

/-- A `FileSink` together with the part of the file system it acts on.
`disk` lists the paths that exist; `opened` records, oldest first, every call
of `file_.open` the sink has made, as the path and whether the call succeeded
(bookkeeping for the statements, not program state). -/
structure FileWorld where
  sink : FileSink
  disk : List String
  opened : List (String × Bool)
deriving DecidableEq, Repr

/-- One call of `FileSink::write` with what it gets from outside: the date key
`getCurrentDate()` returns, the message, and whether `file_.open` succeeds
when the first (`okDate`) or the second (`okSize`) `if` of `write` reaches
`openNewFile`. -/
structure WriteCall where
  date : String
  msg : String
  okDate : Bool
  okSize : Bool
deriving DecidableEq, Repr

namespace FileSink

/-- The name built in `openNewFile`: `basename_date`, then `_index` when the
index is positive, then `.log`. -/
def fileName (s : FileSink) : String :=
  s.basename ++ "_" ++ s.currentDate ++
    (if s.fileIndex > 0 then "_" ++ toString s.fileIndex else "") ++ ".log"

/-- The test `file_.tellp() >= maxSize_`.  The position is converted to the
unsigned type of `maxSize_`, so the `-1` of a stream that is not open compares
as the largest `size_t` and the test succeeds. -/
def sizeReached (s : FileSink) : Bool :=
  if s.file.tellp < 0 then true else decide ((s.maxSize : Int) ≤ s.file.tellp)

end FileSink

namespace FileWorld

/-- Opening `path` for writing with truncation: afterwards the path exists. -/
def create (disk : List String) (path : String) : List String :=
  if path ∈ disk then disk else disk ++ [path]

/-- `std::remove(path)`: the path no longer exists, also when a stream is open
on it (the headers of `Sink.hpp` are POSIX ones). -/
def remove (disk : List String) (path : String) : List String :=
  disk.filter (fun p => p ≠ path)

/-- The paths of the `file_.open` calls made so far, oldest first. -/
def names (w : FileWorld) : List String :=
  w.opened.map Prod.fst

/-- `FileSink::openNewFile`: close the stream if open, build the name, open it
(the result is not checked; `ok` says whether the open succeeds, and only then
does the path come to exist), append the name to `recentFiles_`, and when the
history is longer than `maxFiles_` remove its front entry from disk and from
the history. -/
def openNewFile (w : FileWorld) (ok : Bool) : FileWorld :=
  let s := w.sink
  let name := s.fileName
  let f1 := (if s.file.isOpen then s.file.close else s.file).reopen name ok
  let disk1 := if ok then create w.disk name else w.disk
  let recent1 := s.recentFiles ++ [name]
  if recent1.length > s.maxFiles then
    { sink := { s with file := f1, recentFiles := recent1.tail },
      disk := remove disk1 (recent1.headD name),
      opened := w.opened ++ [(name, ok)] }
  else
    { sink := { s with file := f1, recentFiles := recent1 },
      disk := disk1,
      opened := w.opened ++ [(name, ok)] }

/-- Constructor `FileSink(basename, maxSize, maxFiles)`; `today` is what
`getCurrentDate()` returns, `disk` the paths that exist beforehand and `ok`
whether the open succeeds. -/
def construct (basename : String) (maxSize maxFiles : Nat) (today : String)
    (disk : List String) (ok : Bool) : FileWorld :=
  openNewFile
    { sink := { basename := basename, maxSize := maxSize, maxFiles := maxFiles,
                file := OfStream.closed, currentDate := today, fileIndex := 0,
                recentFiles := [] },
      disk := disk, opened := [] } ok

/-- The assignments to `currentDate_` and `fileIndex_` that `write` makes before
it calls `openNewFile`. -/
def setTarget (w : FileWorld) (date : String) (index : Int) : FileWorld :=
  { w with sink := { w.sink with currentDate := date, fileIndex := index } }

/-- First `if` of `write`: the date key changed. -/
def rollDate (w : FileWorld) (today : String) (ok : Bool) : FileWorld :=
  if today ≠ w.sink.currentDate then openNewFile (w.setTarget today 0) ok
  else w

/-- Second `if` of `write`: `file_.tellp() >= maxSize_`. -/
def rollSize (w : FileWorld) (ok : Bool) : FileWorld :=
  if w.sink.sizeReached then
    openNewFile (w.setTarget w.sink.currentDate (intInc w.sink.fileIndex)) ok
  else w

/-- `FileSink::write(msg)`. -/
def write (w : FileWorld) (c : WriteCall) : FileWorld :=
  let w2 := rollSize (rollDate w c.date c.okDate) c.okSize
  { w2 with sink := { w2.sink with file := w2.sink.file.putLine c.msg } }

/-- A sequence of `write` calls. -/
def writeAll (w : FileWorld) (calls : List WriteCall) : FileWorld :=
  calls.foldl write w

/-- The sink and its files after construction and a sequence of `write` calls. -/
def reached (basename : String) (maxSize maxFiles : Nat) (today : String)
    (disk : List String) (ok : Bool) (calls : List WriteCall) : FileWorld :=
  (construct basename maxSize maxFiles today disk ok).writeAll calls

/-- On a list of names given newest first: no name equals one of the `M` names
that precede it in time. -/
def spacedFrom (M : Nat) : List String → Bool
  | [] => true
  | n :: older => !(older.take M).contains n && spacedFrom M older

/-- No path was opened again while it was among the `M` paths opened just
before it, that is, while it was still in a history of `M` entries. -/
def Spaced (M : Nat) (names : List String) : Prop :=
  spacedFrom M names.reverse = true

instance (M : Nat) (names : List String) : Decidable (Spaced M names) :=
  inferInstanceAs (Decidable (spacedFrom M names.reverse = true))

/-- The last `maxFiles_` calls of `file_.open`, with their outcomes. -/
def recentLog (w : FileWorld) : List (String × Bool) :=
  w.opened.drop (w.opened.length - w.sink.maxFiles)

/-- History bookkeeping of a `FileWorld`: `recentFiles_` holds the paths of the
last `maxFiles_` opens, and, as long as no path was opened again while still
in the history, these paths are distinct and a path the sink has ever opened
with success exists exactly when its open is among them and succeeded. -/
def Hist (w : FileWorld) : Prop :=
  w.sink.recentFiles = w.recentLog.map Prod.fst ∧
  (Spaced w.sink.maxFiles w.names →
    (w.recentLog.map Prod.fst).Nodup ∧
    ∀ p, (p, true) ∈ w.opened → (p ∈ w.disk ↔ (p, true) ∈ w.recentLog))

/-- The stream is open exactly when the last open succeeded, and then it is on
the path of that open. -/
def Cur (w : FileWorld) : Prop :=
  ∃ n ok, w.opened.getLast? = some (n, ok) ∧ w.sink.file.isOpen = ok ∧
    (ok = true → w.sink.file.path = n)

/-- Date keys that never come back: each key of the list is the current one
`cur` or one that is neither `cur` nor among the keys `past` left before. -/
def noReturn : String → List String → List String → Bool
  | _, _, [] => true
  | cur, past, d :: rest =>
    if d = cur then noReturn cur past rest
    else !(past.contains d) && noReturn d (cur :: past) rest

/-- Inputs under which no path can be opened twice: all date keys have the
length of the first (`getCurrentDate` formats them with `%Y%m%d`), a date key
once left never comes back, and fewer than `INT_MAX` writes are made (so that
the index never overflows). -/
def Calm (today : String) (calls : List WriteCall) : Prop :=
  (∀ c ∈ calls, c.date.length = today.length) ∧
  noReturn today [] (calls.map WriteCall.date) = true ∧
  (calls.length : Int) < INT_MAX

instance (today : String) (calls : List WriteCall) : Decidable (Calm today calls) :=
  inferInstanceAs (Decidable (_ ∧ _ ∧ _))

/-- Every open of the run succeeds: the constructor's and both possible opens
of every write. -/
def AllOk (ok : Bool) (calls : List WriteCall) : Prop :=
  ok = true ∧ ∀ c ∈ calls, c.okDate = true ∧ c.okSize = true

instance (ok : Bool) (calls : List WriteCall) : Decidable (AllOk ok calls) :=
  inferInstanceAs (Decidable (_ ∧ _))

/-- Every path opened so far is the name of a date key and index that cannot
come again: the current key with an index up to the current one, or a key left
before; and no path was opened twice. -/
def Named (w : FileWorld) (past : List String) (L : Nat) : Prop :=
  0 ≤ w.sink.fileIndex ∧ w.sink.currentDate.length = L ∧ w.names.Nodup ∧
  ∀ n ∈ w.names, ∃ d i, n = (w.setTarget d i).sink.fileName ∧ d.length = L ∧ 0 ≤ i ∧
    ((d = w.sink.currentDate ∧ i ≤ w.sink.fileIndex) ∨ (d ∈ past ∧ d ≠ w.sink.currentDate))

/-- Example: sink `"a"` with `maxSize_ = 4` and `maxFiles_ = 5`, constructed on
2025-01-01 on an empty disk. -/
def smallSink : FileWorld := construct "a" 4 5 "20250101" [] true

/-- Example: `smallSink` after the line `"hello"` (6 bytes with the newline)
was written on the same day. -/
def smallSinkFull : FileWorld :=
  smallSink.write { date := "20250101", msg := "hello", okDate := true, okSize := true }

/-- Example: sink `"a"` with `maxSize_ = 0`, constructed on 2025-01-01. -/
def zeroSizeSink : FileWorld := construct "a" 0 2 "20250101" [] true

/-- Example: sink `"a"` with `maxFiles_ = 0`, constructed on 2025-01-01. -/
def zeroFilesSink : FileWorld := construct "a" 1000 0 "20250101" [] true

/-- Example: sink `"nodir/a"` (`maxSize_ = 1000`, `maxFiles_ = 2`) constructed on
2025-01-01 where the directory `nodir` does not exist, so that the open
fails. -/
def noDirSink : FileWorld := construct "nodir/a" 1000 2 "20250101" [] false

/-- Example: sink `"a"` with `maxFiles_ = 2`, constructed on 2025-01-01, written
to on 2025-01-02 and then, the clock having been set back, on 2025-01-01;
every open succeeds. -/
def clockBackSink : FileWorld :=
  reached "a" 1000 2 "20250101" [] true
    [{ date := "20250102", msg := "x", okDate := true, okSize := true },
     { date := "20250101", msg := "y", okDate := true, okSize := true }]

/-- Example: sink `"a"` with `maxFiles_ = 2`, constructed on 2025-01-01 and
written to on the three following days; every open succeeds. -/
def fourDaySink : FileWorld :=
  reached "a" 1000 2 "20250101" [] true
    [{ date := "20250102", msg := "x", okDate := true, okSize := true },
     { date := "20250103", msg := "y", okDate := true, okSize := true },
     { date := "20250104", msg := "z", okDate := true, okSize := true }]

/-- Example: as `fourDaySink`, but on the fourth day the date key is that of
the first day again, whose file has left the history by then. -/
def lateReturnSink : FileWorld :=
  reached "a" 1000 2 "20250101" [] true
    [{ date := "20250102", msg := "x", okDate := true, okSize := true },
     { date := "20250103", msg := "y", okDate := true, okSize := true },
     { date := "20250101", msg := "z", okDate := true, okSize := true }]

/-- Example: `noDirSink` after two writes on the same day, every open
failing. -/
def noDirTwoWrites : FileWorld :=
  noDirSink.writeAll
    [{ date := "20250101", msg := "x", okDate := false, okSize := false },
     { date := "20250101", msg := "y", okDate := false, okSize := false }]

end FileWorld

/-- Value of a decimal digit character (used to read file names back). -/
def digitVal (c : Char) : Nat := c.toNat - 48

/-- Value of a string of decimal digits. -/
def digitsVal (cs : List Char) : Nat :=
  cs.foldl (fun a c => a * 10 + digitVal c) 0

/-! ## Sink.hpp: TCPSink -/

/-- Data members of `TCPSink` that the worker loop reads and writes. -/
structure TCPSink where
  sock : Int
  queue : List String
  stopFlag : Bool
deriving DecidableEq, Repr

/-- What one run of the send loop leaves behind: socket, outbound queue, and
the messages handed to `send`, in call order. -/
structure SendRun where
  sock : Int
  queue : List String
  calls : List String
deriving DecidableEq, Repr

namespace TCPSink

/-- State right after construction: not connected, nothing queued. -/
def mk0 : TCPSink := { sock := -1, queue := [], stopFlag := false }

/-- `TCPSink::write`: append to the outbound queue. -/
def write (s : TCPSink) (msg : String) : TCPSink :=
  { s with queue := s.queue ++ [msg] }

/-- `TCPSink::sendMessage`, given the value `sent` that `send` returned:
`sent == (ssize_t)len`. -/
def sendMessage (msg : String) (sent : Int) : Bool :=
  sent == (msg.utf8ByteSize : Int)

/-- The loop `while (!queue_.empty())` of `run` (lines 138-146), run with the
mutex held.  `sendRes k` is the value returned by the `k`-th call of `send`;
`k` counts the calls made before this point. -/
def sendLoop (sendRes : Nat → Int) : Nat → Int → List String → SendRun
  | _, sock, [] => { sock := sock, queue := [], calls := [] }
  | k, sock, msg :: rest =>
    if sendMessage msg (sendRes k) then
      let r := sendLoop sendRes (k + 1) sock rest
      { r with calls := msg :: r.calls }
    else
      { sock := -1, queue := msg :: rest, calls := [msg] }

/-- `TCPSink::connectServer`, given the descriptor `newSock` that `socket`
returns and the result `connectRes` of `connect`. -/
def connectServer (s : TCPSink) (newSock connectRes : Int) : TCPSink × Bool :=
  if s.sock ≥ 0 then (s, true)
  else if newSock < 0 then ({ s with sock := newSock }, false)
  else if connectRes < 0 then ({ s with sock := -1 }, false)
  else ({ s with sock := newSock }, true)

/-- One round of the outer loop of `run` entered with `stopFlag_` clear: connect
if needed, and once connected run the send loop on the queue as it is when the
wait ends.  Returns the state and the messages handed to `send`. -/
def runRound (s : TCPSink) (newSock connectRes : Int) (sendRes : Nat → Int) :
    TCPSink × List String :=
  let c := connectServer s newSock connectRes
  if c.2 then
    let r := sendLoop sendRes 0 c.1.sock c.1.queue
    ({ c.1 with sock := r.sock, queue := r.queue }, r.calls)
  else (c.1, [])

end TCPSink

/-! ## Server.hpp: the poll loop -/

/-- Value of `POLLIN` in `<poll.h>`. -/
def POLLIN : Nat := 1

/-- A `struct pollfd`. -/
structure PollFd where
  fd : Int
  events : Nat
  revents : Nat
deriving DecidableEq, Repr

/-- The test `fds[i].revents & POLLIN`. -/
def PollFd.readable (e : PollFd) : Bool :=
  e.revents &&& POLLIN != 0

/-- System calls made by one pass of the `for` loop of `pollLoop`. -/
inductive PollEvent where
  /-- `accept(serverFd_, ...)` returned `client`. -/
  | accept (client : Int) : PollEvent
  /-- `read(fd, ...)` returned `n`. -/
  | read (fd : Int) (n : Int) : PollEvent
  /-- `close(fd)`. -/
  | close (fd : Int) : PollEvent
deriving DecidableEq, Repr

/-- The descriptor an event handles: `none` for the listening socket,
`some fd` for a connection; a `close` handles nothing by itself. -/
def PollEvent.subject : PollEvent → Option (Option Int)
  | .accept _ => some none
  | .read fd _ => some (some fd)
  | .close _ => none

/-- What the pass gets from outside: the listening descriptor and the results
of the `k`-th `accept` and the `k`-th `read` of the pass. -/
structure PollEnv where
  serverFd : Int
  acceptRes : Nat → Int
  readRes : Nat → Int

/-- The entries that get a `read` in a pass: readable and not the listening
socket. -/
def PollFd.isReader (env : PollEnv) (e : PollFd) : Bool :=
  e.readable && decide (e.fd ≠ env.serverFd)

/-- Descriptor and result of a `read` event. -/
def PollEvent.readInfo : PollEvent → Option (Int × Int)
  | .read fd n => some (fd, n)
  | _ => none

/-- Descriptor of a `close` event. -/
def PollEvent.closedFd : PollEvent → Option Int
  | .close fd => some fd
  | _ => none

/-- Variables of the `for` loop: the vector, the index `i` (a `size_t`), the
number of `accept` and `read` calls made so far, the calls made, and the
values of `i` at which `fds.erase` ran. -/
structure PollState where
  fds : List PollFd
  i : Nat
  accepts : Nat
  reads : Nat
  trace : List PollEvent
  erasedAt : List Nat
deriving DecidableEq, Repr

/-- Body of the `for` loop for the entry `e = fds[i]`, followed by `++i`. -/
def pollBody (env : PollEnv) (st : PollState) (e : PollFd) : PollState :=
  if e.readable then
    if e.fd = env.serverFd then
      { st with
        fds := if env.acceptRes st.accepts ≥ 0
               then st.fds ++ [{ fd := env.acceptRes st.accepts, events := POLLIN, revents := 0 }]
               else st.fds,
        accepts := st.accepts + 1,
        trace := st.trace ++ [PollEvent.accept (env.acceptRes st.accepts)],
        i := sizeInc st.i }
    else if env.readRes st.reads ≤ 0 then
      { st with
        fds := st.fds.eraseIdx st.i,
        reads := st.reads + 1,
        trace := st.trace ++ [PollEvent.read e.fd (env.readRes st.reads), PollEvent.close e.fd],
        erasedAt := st.erasedAt ++ [st.i],
        i := sizeInc (sizeDec st.i) }
    else
      { st with
        reads := st.reads + 1,
        trace := st.trace ++ [PollEvent.read e.fd (env.readRes st.reads)],
        i := sizeInc st.i }
  else { st with i := sizeInc st.i }

/-- The loop `for (size_t i = 0; i < fds.size(); ++i)` continued from `st`, with
at most `fuel` iterations; `none` when the fuel runs out before the loop
ends. -/
def pollPass (env : PollEnv) : Nat → PollState → Option PollState
  | 0, st => if st.i < st.fds.length then none else some st
  | fuel + 1, st =>
    match st.fds.get? st.i with
    | none => some st
    | some e => pollPass env fuel (pollBody env st e)

/-- State at the start of a pass over `fds`. -/
def pollStart (fds : List PollFd) : PollState :=
  { fds := fds, i := 0, accepts := 0, reads := 0, trace := [], erasedAt := [] }

/-- Outcome of a pass as the design describes it. -/
structure PassSummary where
  kept : List PollFd
  added : List PollFd
  trace : List PollEvent
  erasedAt : List Nat
  accepts : Nat
  reads : Nat
deriving DecidableEq, Repr

/-- The pass as the design describes it, entry by entry over the list as it was
at the start: an entry that is not readable stays; a readable listening
socket gets one `accept` (whose descriptor, when valid, joins the list at the
end) and stays; a readable connection gets one `read` and is closed and
removed when the result is zero or negative, kept otherwise.  `pos` is the
position the entry has when its turn comes; `a` and `r` count the `accept` and
`read` calls made before. -/
def passSpec (env : PollEnv) : List PollFd → Nat → Nat → Nat → PassSummary
  | [], _, a, r => { kept := [], added := [], trace := [], erasedAt := [], accepts := a, reads := r }
  | e :: rest, pos, a, r =>
    if e.readable then
      if e.fd = env.serverFd then
        let s := passSpec env rest (pos + 1) (a + 1) r
        { s with
          kept := e :: s.kept,
          added := (if env.acceptRes a ≥ 0
                    then [{ fd := env.acceptRes a, events := POLLIN, revents := 0 }]
                    else []) ++ s.added,
          trace := PollEvent.accept (env.acceptRes a) :: s.trace }
      else if env.readRes r ≤ 0 then
        let s := passSpec env rest pos a (r + 1)
        { s with
          trace := PollEvent.read e.fd (env.readRes r) :: PollEvent.close e.fd :: s.trace,
          erasedAt := pos :: s.erasedAt }
      else
        let s := passSpec env rest (pos + 1) a (r + 1)
        { s with kept := e :: s.kept, trace := PollEvent.read e.fd (env.readRes r) :: s.trace }
    else
      let s := passSpec env rest (pos + 1) a r
      { s with kept := e :: s.kept }

/-- Example: listening socket 3; every `accept` returns 7; the first `read` of
the pass returns 0 (end of stream), every later one 5 bytes. -/
def demoEnv : PollEnv :=
  { serverFd := 3, acceptRes := fun _ => 7, readRes := fun k => if k = 0 then 0 else 5 }

/-- Example: listening socket and connections 4 and 5 readable, connection 6
not. -/
def demoFds : List PollFd :=
  [{ fd := 3, events := POLLIN, revents := POLLIN }, { fd := 4, events := POLLIN, revents := POLLIN },
   { fd := 5, events := POLLIN, revents := POLLIN }, { fd := 6, events := POLLIN, revents := 0 }]

/-! ## Theorems: MPMCQueue -/

theorem sizeDec_pos (n : Nat) (h : 0 < n) : sizeDec n = n - 1 := by
  unfold sizeDec
  rw [if_neg (by omega)]

theorem sizeInc_lt (n : Nat) (hb : n + 1 < SIZE_MOD) : sizeInc n = n + 1 := by
  unfold sizeInc
  rw [if_neg (by omega)]

namespace MPMCQueue

variable {T : Type}

theorem takeSlot_stopped (q : MPMCQueue T) (h : q.stop = true) : takeSlot q = .stopped := by
  simp [takeSlot, h]

theorem takeSlot_free (q : MPMCQueue T) (h : q.stop = false) (hf : 0 < q.freeCount) :
    takeSlot q = .acquired { q with freeCount := q.freeCount - 1 } := by
  simp [takeSlot, h, hf, sizeDec_pos _ hf]

theorem pop_cons (q : MPMCQueue T) (item x : T) (rest : List T)
    (h : q.queueData = x :: rest) :
    pop q item = .returned true x (releaseSlot { q with queueData := rest }) := by
  simp [pop, takeFront, h]

theorem popMany_take (n : Nat) : ∀ (q : MPMCQueue T) (item : T), n ≤ q.queueData.length →
    (popMany n q item).1 = q.queueData.take n ∧
    (popMany n q item).2.queueData = q.queueData.drop n ∧
    (popMany n q item).2.stop = q.stop := by
  induction n with
  | zero => intro q item _; simp [popMany]
  | succ n ih =>
    intro q item hn
    match hq : q.queueData with
    | [] => simp [hq] at hn
    | x :: rest =>
      have hlen : n ≤ (releaseSlot { q with queueData := rest }).queueData.length := by
        simp [releaseSlot]; simp [hq] at hn; exact hn
      have := ih (releaseSlot { q with queueData := rest }) x hlen
      simp only [popMany, pop_cons q item x rest hq, List.take_succ_cons, List.drop_succ_cons]
      simpa [releaseSlot] using this

end MPMCQueue

namespace QueueSystem

variable {T : Type}

theorem balanced_init (C : Nat) : Balanced (init C : QueueSystem T) := by
  simp [Balanced, init, MPMCQueue.mk0]

theorem capacity_step (s : QueueSystem T) (e : QueueEvent T) :
    (step s e).q.capacity = s.q.capacity := by
  cases e with
  | pushTake item =>
    by_cases hs : s.q.stop = true
    · simp [step, pushTake, MPMCQueue.takeSlot, hs]
    · by_cases hf : 0 < s.q.freeCount
      · simp [step, pushTake, MPMCQueue.takeSlot, hs, hf]
      · simp [step, pushTake, MPMCQueue.takeSlot, hs, hf]
  | pushAppend k =>
    simp only [step, pushAppend]
    cases s.pushing.get? k <;> simp [MPMCQueue.appendData]
  | popFront =>
    simp only [step, popFront, MPMCQueue.takeFront]
    match hq : s.q.queueData with
    | [] => by_cases hs : s.q.stop = true <;> simp [hs]
    | x :: rest => simp
  | popRelease =>
    simp only [step, popRelease]
    cases s.releasing <;> simp [MPMCQueue.releaseSlot]
  | callStop => simp [step, MPMCQueue.doStop]

theorem balanced_step (s : QueueSystem T) (e : QueueEvent T)
    (hb : s.q.capacity < SIZE_MOD) (h : Balanced s) : Balanced (step s e) := by
  unfold Balanced at h ⊢
  cases e with
  | pushTake item =>
    by_cases hs : s.q.stop = true
    · simp [step, pushTake, MPMCQueue.takeSlot_stopped _ hs, h]
    · have hs : s.q.stop = false := by simpa using hs
      by_cases hf : 0 < s.q.freeCount
      · simp only [step, pushTake, MPMCQueue.takeSlot_free _ hs hf,
          List.length_append, List.length_singleton]
        omega
      · simp [step, pushTake, MPMCQueue.takeSlot, hs, hf, h]
  | pushAppend k =>
    simp only [step, pushAppend]
    match hk : s.pushing.get? k with
    | none => simpa using h
    | some item =>
      have hlt : k < s.pushing.length := by
        by_contra hc
        rw [List.get?_eq_none.mpr (by omega)] at hk
        cases hk
      simp only [MPMCQueue.appendData, List.length_append, List.length_singleton,
        List.length_eraseIdx, hlt, if_true]
      omega
  | popFront =>
    simp only [step, popFront, MPMCQueue.takeFront]
    match hq : s.q.queueData with
    | [] =>
      by_cases hs : s.q.stop = true
      · simpa [hs, hq] using h
      · simpa [hs, hq] using h
    | x :: rest =>
      simp only [List.isEmpty_cons, Bool.not_false, Bool.true_or, if_true]
      simp only [hq, List.length_cons] at h
      omega
  | popRelease =>
    simp only [step, popRelease]
    match hr : s.releasing with
    | 0 => simpa [hr] using h
    | n + 1 =>
      simp only [MPMCQueue.releaseSlot]
      rw [sizeInc_lt _ (by omega)]
      omega
  | callStop => simpa [step, MPMCQueue.doStop] using h

theorem balanced_run (evs : List (QueueEvent T)) : ∀ (s : QueueSystem T),
    s.q.capacity < SIZE_MOD → Balanced s →
    Balanced (run s evs) ∧ (run s evs).q.capacity = s.q.capacity := by
  induction evs with
  | nil => intro s _ h; exact ⟨h, rfl⟩
  | cons e evs ih =>
    intro s hb h
    have hc := capacity_step s e
    have := ih (step s e) (by omega) (balanced_step s e hb h)
    simp only [run, List.foldl_cons] at this ⊢
    exact ⟨this.1, by omega⟩

end QueueSystem

/-- C1: for every capacity `C` (a `size_t`) and every interleaving of the
atomic steps of `push`, `pop` and `stop` on a queue constructed with capacity
`C`, the data FIFO never holds more than `C` items. -/
theorem C1_occupancy_bounded (T : Type) (C : Nat) (hC : C < SIZE_MOD)
    (evs : List (QueueEvent T)) :
    ((QueueSystem.init C).run evs).q.queueData.length ≤ C := by
  have h := QueueSystem.balanced_run evs (QueueSystem.init C : QueueSystem T)
    (by simpa [QueueSystem.init, MPMCQueue.mk0] using hC) (QueueSystem.balanced_init C)
  have hb := h.1
  have hc : ((QueueSystem.init C).run evs).q.capacity = C := h.2
  unfold QueueSystem.Balanced at hb
  omega

/-- Witness for C1: capacity 1, two producers and a consumer interleaved. -/
theorem C1_occupancy_bounded_witness :
    (1 : Nat) < SIZE_MOD ∧
    ((QueueSystem.init 1).run
      [QueueEvent.pushTake 7, .pushTake 8, .pushAppend 0, .popFront, .popRelease,
       .pushTake 9, .pushAppend 0]).q.queueData = [9] ∧
    ((QueueSystem.init 1).run
      [QueueEvent.pushTake 7, .pushTake 8, .pushAppend 0, .popFront, .popRelease,
       .pushTake 9, .pushAppend 0]).q.queueData.length ≤ 1 :=
  ⟨by decide, by decide, C1_occupancy_bounded Nat 1 (by decide) _⟩

namespace MPMCQueue

variable {T : Type}

theorem pop_nil_stopped (q : MPMCQueue T) (item : T) (h : q.queueData = [])
    (hs : q.stop = true) : pop q item = .returned false item q := by
  simp [pop, takeFront, h, hs]

theorem pop_nil_running (q : MPMCQueue T) (item : T) (h : q.queueData = [])
    (hs : q.stop = false) : pop q item = .blocked := by
  simp [pop, takeFront, h, hs]

theorem push_stopped (q : MPMCQueue T) (item : T) (h : q.stop = true) :
    push q item = some q := by
  simp [push, takeSlot_stopped q h]

theorem push_free (q : MPMCQueue T) (item : T) (h : q.stop = false) (hf : 0 < q.freeCount) :
    push q item =
      some { q with freeCount := q.freeCount - 1, queueData := q.queueData ++ [item] } := by
  simp [push, takeSlot_free q h hf, appendData]

theorem push_free_spec (q : MPMCQueue T) (item : T) (h : q.stop = false)
    (hf : 0 < q.freeCount) :
    ∃ q1, push q item = some q1 ∧ q1.queueData = q.queueData ++ [item] ∧
      q1.freeCount = q.freeCount - 1 ∧ q1.stop = q.stop :=
  ⟨_, push_free q item h hf, rfl, rfl, rfl⟩

theorem push_full (q : MPMCQueue T) (item : T) (h : q.stop = false) (hf : q.freeCount = 0) :
    push q item = none := by
  simp [push, takeSlot, h, hf]

end MPMCQueue

/-- C2: `pop` returns `false` exactly when the FIFO is empty and the stopped
flag is set (and then changes neither the queue nor `item`); it blocks exactly
when the FIFO is empty and the flag is clear; whenever the FIFO is non-empty,
stopped or not, it returns `true` with the oldest item, removes exactly that
item and gives one slot back.  Hence two items pushed in the order `a`, `b`
come out in that order, after the items that were already queued, also when
`stop()` is called before they are popped, and the pop after the last of them
returns `false`. -/
theorem C2_pop_contract (T : Type) (q : MPMCQueue T) (item : T) :
    ((∃ it q1, q.pop item = .returned false it q1) ↔ (q.queueData = [] ∧ q.stop = true)) ∧
    (q.queueData = [] → q.stop = true → q.pop item = .returned false item q) ∧
    (q.pop item = .blocked ↔ (q.queueData = [] ∧ q.stop = false)) ∧
    (∀ x rest, q.queueData = x :: rest →
      q.pop item = .returned true x
        { q with queueData := rest, freeCount := sizeInc q.freeCount }) ∧
    (∀ a b, q.stop = false → 2 ≤ q.freeCount →
      ∃ q1 q2, q.push a = some q1 ∧ q1.push b = some q2 ∧
        q2.queueData = q.queueData ++ [a, b] ∧
        (q2.popMany (q.queueData.length + 2) item).1 = q.queueData ++ [a, b] ∧
        (q2.doStop.popMany (q.queueData.length + 2) item).1 = q.queueData ++ [a, b] ∧
        ∀ it, ∃ q3, (q2.doStop.popMany (q.queueData.length + 2) item).2.pop it
          = .returned false it q3) := by
  refine ⟨?_, ?_, ?_, ?_, ?_⟩
  · constructor
    · rintro ⟨it, q1, h⟩
      match hq : q.queueData with
      | [] =>
        cases hs : q.stop
        · rw [MPMCQueue.pop_nil_running q item hq hs] at h; cases h
        · exact ⟨rfl, rfl⟩
      | x :: rest => rw [MPMCQueue.pop_cons q item x rest hq] at h; cases h
    · rintro ⟨hq, hs⟩
      exact ⟨item, q, MPMCQueue.pop_nil_stopped q item hq hs⟩
  · intro hq hs
    exact MPMCQueue.pop_nil_stopped q item hq hs
  · constructor
    · intro h
      match hq : q.queueData with
      | [] =>
        cases hs : q.stop
        · exact ⟨rfl, rfl⟩
        · rw [MPMCQueue.pop_nil_stopped q item hq hs] at h; cases h
      | x :: rest => rw [MPMCQueue.pop_cons q item x rest hq] at h; cases h
    · rintro ⟨hq, hs⟩
      exact MPMCQueue.pop_nil_running q item hq hs
  · intro x rest hq
    rw [MPMCQueue.pop_cons q item x rest hq]
    rfl
  · intro a b hs hf
    obtain ⟨q1, h1, d1, f1, s1⟩ := MPMCQueue.push_free_spec q a hs (by omega)
    obtain ⟨q2, h2, d2, _, s2⟩ := MPMCQueue.push_free_spec q1 b (by rw [s1, hs]) (by omega)
    have hd : q2.queueData = q.queueData ++ [a, b] := by rw [d2, d1]; simp
    have t1 := MPMCQueue.popMany_take (q.queueData.length + 2) q2 item (by simp [hd])
    have t2 := MPMCQueue.popMany_take (q.queueData.length + 2) q2.doStop item
      (by simp [hd, MPMCQueue.doStop])
    have hd2 : q2.doStop.queueData = q.queueData ++ [a, b] := hd
    refine ⟨q1, q2, h1, h2, hd, ?_, ?_, ?_⟩
    · rw [t1.1, hd]; simp
    · rw [t2.1, hd2]; simp
    · intro it
      refine ⟨_, MPMCQueue.pop_nil_stopped _ it ?_ ?_⟩
      · rw [t2.2.1, hd2]; simp
      · rw [t2.2.2]; rfl

/-- Witness for C2: the capacity-2 scenario.  `"a"` and `"b"` are pushed on
the fresh queue and are popped in that order, also after `stop()`; the pop that
follows returns `false`. -/
theorem C2_pop_contract_witness :
    (MPMCQueue.mk0 2 : MPMCQueue String).stop = false ∧
    2 ≤ (MPMCQueue.mk0 2 : MPMCQueue String).freeCount ∧
    ∃ q1 q2 : MPMCQueue String, (MPMCQueue.mk0 2).push "a" = some q1 ∧
      q1.push "b" = some q2 ∧
      q2.queueData = ["a", "b"] ∧
      (q2.popMany 2 "").1 = ["a", "b"] ∧
      (q2.doStop.popMany 2 "").1 = ["a", "b"] ∧
      ∀ it, ∃ q3, (q2.doStop.popMany 2 "").2.pop it = .returned false it q3 :=
  ⟨rfl, by decide, (C2_pop_contract String (MPMCQueue.mk0 2) "").2.2.2.2 "a" "b" rfl (by decide)⟩

/-- C3: on a stopped queue `push` returns with the queue exactly as it was
(FIFO and free-slot count unchanged, whatever the free-slot count is); on a
queue that is not stopped and has a free slot it takes exactly one slot and
appends the item at the tail of the FIFO, changing nothing else; on a queue
that is not stopped and has no free slot the caller stays blocked. -/
theorem C3_push_contract (T : Type) (q : MPMCQueue T) (item : T) :
    (q.stop = true → q.push item = some q) ∧
    (q.stop = false → 0 < q.freeCount →
      q.push item =
        some { q with freeCount := q.freeCount - 1, queueData := q.queueData ++ [item] }) ∧
    (q.stop = false → q.freeCount = 0 → q.push item = none) :=
  ⟨MPMCQueue.push_stopped q item, MPMCQueue.push_free q item, MPMCQueue.push_full q item⟩

/-- Witness for C3: a stopped queue with one free slot drops the item; the
same queue before `stop()` stores it; the full queue blocks. -/
theorem C3_push_contract_witness :
    ((MPMCQueue.mk0 1 : MPMCQueue Nat).doStop.stop = true ∧
      (MPMCQueue.mk0 1 : MPMCQueue Nat).doStop.push 5 = some (MPMCQueue.mk0 1).doStop) ∧
    ((MPMCQueue.mk0 1 : MPMCQueue Nat).stop = false ∧
      0 < (MPMCQueue.mk0 1 : MPMCQueue Nat).freeCount ∧
      (MPMCQueue.mk0 1 : MPMCQueue Nat).push 5 =
        some { queueData := [5], capacity := 1, freeCount := 0, stop := false }) ∧
    ((MPMCQueue.mk0 0 : MPMCQueue Nat).stop = false ∧
      (MPMCQueue.mk0 0 : MPMCQueue Nat).freeCount = 0 ∧
      (MPMCQueue.mk0 0 : MPMCQueue Nat).push 5 = none) :=
  ⟨⟨rfl, (C3_push_contract Nat (MPMCQueue.mk0 1).doStop 5).1 rfl⟩,
   ⟨rfl, by decide, (C3_push_contract Nat (MPMCQueue.mk0 1) 5).2.1 rfl (by decide)⟩,
   ⟨rfl, rfl, (C3_push_contract Nat (MPMCQueue.mk0 0) 5).2.2 rfl rfl⟩⟩

/-! ## Theorems: Logger -/

namespace Logger

theorem fanOut_effects (msg : String) : ∀ (sinks : List SinkLog) (idx : Nat),
    (fanOut msg sinks idx).2 =
      (List.range sinks.length).map (fun i => LogEffect.sinkWrite (idx + i) msg) ∧
    (fanOut msg sinks idx).1 = sinks.map (fun s => s.write msg) := by
  intro sinks
  induction sinks with
  | nil => intro idx; simp [fanOut]
  | cons s rest ih =>
    intro idx
    have h := ih (idx + 1)
    simp only [fanOut, h.1, h.2, List.length_cons, List.range_succ_eq_map, List.map_cons,
      List.map_map, Nat.add_zero, true_and, and_true, List.cons.injEq]
    apply List.map_congr_left
    intro i _
    simp only [Function.comp]
    congr 1
    omega

theorem log_below (lg : Logger) (now : ClockReading) (level : LogLevel) (msg : String)
    (h : level.toNat < lg.level.toNat) : log lg now level msg = some (lg, []) := by
  simp [log, h]

theorem log_sync (lg : Logger) (now : ClockReading) (level : LogLevel) (msg : String)
    (h : ¬ level.toNat < lg.level.toNat) (ha : lg.asyncRunning = false) :
    log lg now level msg =
      some ({ lg with sinks := lg.sinks.map (fun s => s.write (formatMessage now level msg)) },
        (List.range lg.sinks.length).map
          (fun i => LogEffect.sinkWrite i (formatMessage now level msg))) := by
  have e := fanOut_effects (formatMessage now level msg) lg.sinks 0
  simp only [Nat.zero_add] at e
  simp [log, h, ha, e.1, e.2]

end Logger

/-- C4: a call `log(l, msg)` with `l` below the configured level, in the order
`TRACE < DEBUG < INFO < WARN < ERROR < FATAL`, returns at once: no sink is
written, nothing is pushed on the queue and the logger is unchanged, whether
the asynchronous mode is on or off; in particular after `setLevel(WARN)` a
`log(INFO, ...)` makes no call.  With `l` at or above the configured level and
the asynchronous mode off, the calls made are exactly one `write` per
registered sink, in registration order, all with the same formatted line, and
each sink has that line appended to what it received. -/
theorem C4_level_filter (lg : Logger) (now : ClockReading) (l : LogLevel) (msg : String) :
    (LogLevel.TRACE.toNat < LogLevel.DEBUG.toNat ∧ LogLevel.DEBUG.toNat < LogLevel.INFO.toNat ∧
      LogLevel.INFO.toNat < LogLevel.WARN.toNat ∧ LogLevel.WARN.toNat < LogLevel.ERROR.toNat ∧
      LogLevel.ERROR.toNat < LogLevel.FATAL.toNat) ∧
    (l.toNat < lg.level.toNat → lg.log now l msg = some (lg, [])) ∧
    ((lg.setLevel .WARN).log now .INFO msg = some (lg.setLevel .WARN, [])) ∧
    (¬ l.toNat < lg.level.toNat → lg.asyncRunning = false →
      ∃ lg1 effects, lg.log now l msg = some (lg1, effects) ∧
        effects = (List.range lg.sinks.length).map
          (fun i => LogEffect.sinkWrite i (Logger.formatMessage now l msg)) ∧
        lg1.sinks = lg.sinks.map (fun s => s.write (Logger.formatMessage now l msg)) ∧
        lg1.queue = lg.queue ∧ lg1.level = lg.level ∧
        (∀ i, i < lg.sinks.length →
          effects.count (LogEffect.sinkWrite i (Logger.formatMessage now l msg)) = 1) ∧
        (∀ line, LogEffect.queuePush line ∉ effects)) := by
  refine ⟨by decide, Logger.log_below lg now l msg, ?_, ?_⟩
  · exact Logger.log_below _ now .INFO msg (by simp [Logger.setLevel, LogLevel.toNat])
  · intro h ha
    refine ⟨_, _, Logger.log_sync lg now l msg h ha, rfl, rfl, rfl, rfl, ?_, ?_⟩
    · intro i hi
      rw [List.count_eq_one_of_mem]
      · apply List.Nodup.map _ (List.nodup_range _)
        intro a b hab
        cases hab
        rfl
      · exact List.mem_map.mpr ⟨i, List.mem_range.mpr hi, rfl⟩
    · intro line hmem
      obtain ⟨i, _, hi⟩ := List.mem_map.mp hmem
      cases hi

/-- Witness for C4: a synchronous logger at level `WARN` with two sinks drops
an `INFO` record and hands an `ERROR` record to both sinks, first sink first. -/
theorem C4_level_filter_witness :
    (LogLevel.INFO.toNat < LogLevel.WARN.toNat ∧
      ((((Logger.mk0.addSink ⟨[]⟩).addSink ⟨["old"]⟩).setLevel .WARN).log
        ⟨"2025-01-01 10:00:00", 7⟩ .INFO "hi")
        = some (((Logger.mk0.addSink ⟨[]⟩).addSink ⟨["old"]⟩).setLevel .WARN, [])) ∧
    (¬ LogLevel.ERROR.toNat < LogLevel.WARN.toNat ∧
      ∃ lg1 effects,
        ((((Logger.mk0.addSink ⟨[]⟩).addSink ⟨["old"]⟩).setLevel .WARN).log
          ⟨"2025-01-01 10:00:00", 7⟩ .ERROR "hi") = some (lg1, effects) ∧
        effects = [LogEffect.sinkWrite 0 "[2025-01-01 10:00:00.007][ERROR] hi",
                   LogEffect.sinkWrite 1 "[2025-01-01 10:00:00.007][ERROR] hi"] ∧
        lg1.sinks = [⟨["[2025-01-01 10:00:00.007][ERROR] hi"]⟩,
                     ⟨["old", "[2025-01-01 10:00:00.007][ERROR] hi"]⟩]) :=
  ⟨⟨by decide,
    (C4_level_filter (((Logger.mk0.addSink ⟨[]⟩).addSink ⟨["old"]⟩).setLevel .WARN)
      ⟨"2025-01-01 10:00:00", 7⟩ .INFO "hi").2.1 (by decide)⟩,
   ⟨by decide, by
    obtain ⟨lg1, effects, h1, h2, h3, _⟩ :=
      (C4_level_filter (((Logger.mk0.addSink ⟨[]⟩).addSink ⟨["old"]⟩).setLevel .WARN)
        ⟨"2025-01-01 10:00:00", 7⟩ .ERROR "hi").2.2.2 (by decide) rfl
    refine ⟨lg1, effects, h1, ?_, ?_⟩
    · rw [h2]; decide
    · rw [h3]; decide⟩⟩

/-! ## Theorems: FileSink -/

theorem drop_snoc_tail {α : Type} (o : List α) (x : α) (M : Nat) (h : M ≤ o.length) :
    (o.drop (o.length - M) ++ [x]).tail = (o ++ [x]).drop (o.length + 1 - M) := by
  have e : o.length + 1 - M = (o.length - M) + 1 := by omega
  rw [e, ← List.tail_drop, List.drop_append_of_le_length (by omega)]

theorem mem_tail_of_nodup_fst (l : List (String × Bool)) (d : String) (x : String × Bool)
    (hl : l ≠ []) (hn : (l.map Prod.fst).Nodup) :
    x ∈ l.tail ↔ x ∈ l ∧ x.1 ≠ (l.map Prod.fst).headD d := by
  cases l with
  | nil => exact absurd rfl hl
  | cons a t =>
    simp only [List.tail_cons, List.map_cons, List.headD_cons, List.mem_cons]
    have hna : a.1 ∉ t.map Prod.fst := by
      simp only [List.map_cons] at hn
      exact (List.nodup_cons.mp hn).1
    constructor
    · intro h
      refine ⟨Or.inr h, fun e => hna ?_⟩
      rw [← e]
      exact List.mem_map_of_mem _ h
    · rintro ⟨h | h, hne⟩
      · exact absurd (by rw [h]) hne
      · exact h

theorem intInc_lt (n : Int) (h : n < INT_MAX) : intInc n = n + 1 := by
  unfold intInc
  rw [if_neg (by omega)]

namespace FileWorld

theorem spaced_snoc (M : Nat) (l : List String) (n : String) :
    Spaced M (l ++ [n]) ↔ n ∉ l.drop (l.length - M) ∧ Spaced M l := by
  unfold Spaced
  rw [List.reverse_append, List.reverse_singleton, List.singleton_append, spacedFrom,
    List.take_reverse]
  simp

theorem reopen_close (f : OfStream) (name : String) (ok : Bool) :
    (if f.isOpen then f.close else f).reopen name ok =
      if ok then OfStream.openTrunc name else (if f.isOpen then f.close else f) := by
  cases h : f.isOpen <;> simp [OfStream.reopen, OfStream.close, h]

theorem mem_create (disk : List String) (path p : String) :
    p ∈ create disk path ↔ p ∈ disk ∨ p = path := by
  unfold create
  split
  · constructor
    · intro h; exact Or.inl h
    · rintro (h | h)
      · exact h
      · subst h; assumption
  · simp

theorem mem_remove (disk : List String) (path p : String) :
    p ∈ remove disk path ↔ p ∈ disk ∧ p ≠ path := by
  simp [remove]

theorem openNewFile_file_ok (w : FileWorld) :
    (openNewFile w true).sink.file = OfStream.openTrunc w.sink.fileName := by
  unfold openNewFile
  simp only [reopen_close, if_true]
  split <;> rfl

theorem openNewFile_file_fail (w : FileWorld) :
    (openNewFile w false).sink.file.isOpen = false := by
  unfold openNewFile
  simp only [reopen_close]
  split <;> (cases h : w.sink.file.isOpen <;> simp [OfStream.close, h])

theorem openNewFile_opened (w : FileWorld) (ok : Bool) :
    (openNewFile w ok).opened = w.opened ++ [(w.sink.fileName, ok)] := by
  unfold openNewFile
  simp only []
  split <;> rfl

theorem openNewFile_params (w : FileWorld) (ok : Bool) :
    (openNewFile w ok).sink.basename = w.sink.basename ∧
    (openNewFile w ok).sink.maxSize = w.sink.maxSize ∧
    (openNewFile w ok).sink.maxFiles = w.sink.maxFiles ∧
    (openNewFile w ok).sink.currentDate = w.sink.currentDate ∧
    (openNewFile w ok).sink.fileIndex = w.sink.fileIndex := by
  unfold openNewFile
  simp only []
  split <;> exact ⟨rfl, rfl, rfl, rfl, rfl⟩

theorem openNewFile_recent (w : FileWorld) (ok : Bool) :
    (openNewFile w ok).sink.recentFiles =
      if w.sink.maxFiles < w.sink.recentFiles.length + 1
      then (w.sink.recentFiles ++ [w.sink.fileName]).tail
      else w.sink.recentFiles ++ [w.sink.fileName] := by
  unfold openNewFile
  simp only [List.length_append, List.length_singleton, gt_iff_lt]
  split <;> rfl

theorem openNewFile_disk (w : FileWorld) (ok : Bool) :
    (openNewFile w ok).disk =
      if w.sink.maxFiles < w.sink.recentFiles.length + 1
      then remove (if ok then create w.disk w.sink.fileName else w.disk)
        ((w.sink.recentFiles ++ [w.sink.fileName]).headD w.sink.fileName)
      else (if ok then create w.disk w.sink.fileName else w.disk) := by
  unfold openNewFile
  simp only [List.length_append, List.length_singleton, gt_iff_lt]
  split <;> rfl

theorem cur_openNewFile (w : FileWorld) (ok : Bool) : Cur (openNewFile w ok) := by
  refine ⟨w.sink.fileName, ok, ?_, ?_, ?_⟩
  · rw [openNewFile_opened]; simp
  · cases ok
    · exact openNewFile_file_fail w
    · rw [openNewFile_file_ok]; rfl
  · intro h
    subst h
    rw [openNewFile_file_ok]; rfl

theorem recentLog_length (w : FileWorld) :
    w.recentLog.length = min w.opened.length w.sink.maxFiles := by
  unfold recentLog
  rw [List.length_drop]
  omega

theorem recentLog_openNewFile (w : FileWorld) (ok : Bool) :
    (openNewFile w ok).recentLog =
      if w.sink.maxFiles < w.recentLog.length + 1
      then (w.recentLog ++ [(w.sink.fileName, ok)]).tail
      else w.recentLog ++ [(w.sink.fileName, ok)] := by
  have hl := recentLog_length w
  unfold recentLog at hl ⊢
  rw [openNewFile_opened, (openNewFile_params w ok).2.2.1]
  simp only [List.length_append, List.length_singleton]
  split
  · rename_i hc
    have hM : w.sink.maxFiles ≤ w.opened.length := by omega
    exact (drop_snoc_tail _ _ _ hM).symm
  · rename_i hc
    have e0 : w.opened.length - w.sink.maxFiles = 0 := by omega
    have e1 : w.opened.length + 1 - w.sink.maxFiles = 0 := by omega
    rw [e0, e1]
    rfl

end FileWorld

namespace FileWorld

theorem names_drop (w : FileWorld) :
    w.names.drop (w.names.length - w.sink.maxFiles) = w.recentLog.map Prod.fst := by
  unfold names recentLog
  rw [List.length_map, List.map_drop]

theorem hist_openNewFile (w : FileWorld) (ok : Bool) (h : Hist w) :
    Hist (openNewFile w ok) := by
  obtain ⟨hr, hd⟩ := h
  have hlen : w.sink.recentFiles.length = w.recentLog.length := by
    rw [hr, List.length_map]
  have hM := (openNewFile_params w ok).2.2.1
  refine ⟨?_, ?_⟩
  · rw [openNewFile_recent, recentLog_openNewFile, hlen]
    split
    · rw [List.map_tail, List.map_append, hr]; rfl
    · rw [List.map_append, hr]; rfl
  · intro hsp
    have hnames : (openNewFile w ok).names = w.names ++ [w.sink.fileName] := by
      unfold names
      rw [openNewFile_opened]
      simp
    rw [hnames, hM, spaced_snoc, names_drop] at hsp
    obtain ⟨hfresh, hsp0⟩ := hsp
    obtain ⟨hnd0, hdisk0⟩ := hd hsp0
    have hnd1 : ((w.recentLog ++ [(w.sink.fileName, ok)]).map Prod.fst).Nodup := by
      rw [List.map_append]
      apply List.Nodup.append hnd0 (List.nodup_singleton _)
      intro x hx hx2
      simp only [List.map_cons, List.map_nil, List.mem_singleton] at hx2
      rw [hx2] at hx
      exact hfresh hx
    have hA : ∀ p, (p, true) ∈ w.opened ++ [(w.sink.fileName, ok)] →
        (p ∈ (if ok then create w.disk w.sink.fileName else w.disk) ↔
          (p, true) ∈ w.recentLog ++ [(w.sink.fileName, ok)]) := by
      intro p hp
      by_cases hpn : p = w.sink.fileName
      · subst hpn
        cases ok
        · have hp0 : (w.sink.fileName, true) ∈ w.opened := by
            rcases List.mem_append.mp hp with h1 | h1
            · exact h1
            · simp at h1
          have hnot : (w.sink.fileName, true) ∉ w.recentLog := fun hm =>
            hfresh (List.mem_map_of_mem Prod.fst hm)
          simp only [Bool.false_eq_true, if_false, List.mem_append, List.mem_singleton,
            Prod.mk.injEq, and_false, or_false]
          rw [hdisk0 _ hp0]
          simp
        · simp [mem_create]
      · have hp0 : (p, true) ∈ w.opened := by
          rcases List.mem_append.mp hp with h1 | h1
          · exact h1
          · simp at h1
            exact absurd h1.1 hpn
        have hin : p ∈ (if ok then create w.disk w.sink.fileName else w.disk) ↔ p ∈ w.disk := by
          cases ok
          · simp
          · simp [mem_create, hpn]
        rw [hin, hdisk0 _ hp0]
        simp [hpn]
    rw [recentLog_openNewFile, openNewFile_opened, openNewFile_disk, hlen]
    split
    · refine ⟨?_, ?_⟩
      · rw [List.map_tail]
        exact hnd1.sublist (List.tail_sublist _)
      · intro p hp
        rw [mem_remove, hA p hp, mem_tail_of_nodup_fst _ w.sink.fileName (p, true) (by simp) hnd1]
        rw [hr, List.map_append]
        rfl
    · exact ⟨hnd1, hA⟩

theorem hist_cur_construct (basename : String) (maxSize maxFiles : Nat) (today : String)
    (disk : List String) (ok : Bool) :
    Hist (construct basename maxSize maxFiles today disk ok) ∧
    Cur (construct basename maxSize maxFiles today disk ok) ∧
    (construct basename maxSize maxFiles today disk ok).sink.maxFiles = maxFiles := by
  refine ⟨hist_openNewFile _ ok ?_, cur_openNewFile _ ok, (openNewFile_params _ ok).2.2.1⟩
  constructor
  · simp [recentLog]
  · intro _
    simp [recentLog]

theorem rollDate_inv (w : FileWorld) (today : String) (ok : Bool) (h : Hist w) (hc : Cur w) :
    Hist (rollDate w today ok) ∧ Cur (rollDate w today ok) ∧
    (rollDate w today ok).sink.maxFiles = w.sink.maxFiles := by
  unfold rollDate
  split
  · exact ⟨hist_openNewFile _ ok h, cur_openNewFile _ ok, (openNewFile_params _ ok).2.2.1⟩
  · exact ⟨h, hc, rfl⟩

theorem rollSize_inv (w : FileWorld) (ok : Bool) (h : Hist w) (hc : Cur w) :
    Hist (rollSize w ok) ∧ Cur (rollSize w ok) ∧
    (rollSize w ok).sink.maxFiles = w.sink.maxFiles := by
  unfold rollSize
  split
  · exact ⟨hist_openNewFile _ ok h, cur_openNewFile _ ok, (openNewFile_params _ ok).2.2.1⟩
  · exact ⟨h, hc, rfl⟩

theorem write_inv (w : FileWorld) (c : WriteCall) (h : Hist w) (hc : Cur w) :
    Hist (write w c) ∧ Cur (write w c) ∧ (write w c).sink.maxFiles = w.sink.maxFiles := by
  have h1 := rollDate_inv w c.date c.okDate h hc
  have h2 := rollSize_inv (rollDate w c.date c.okDate) c.okSize h1.1 h1.2.1
  refine ⟨h2.1, ?_, h2.2.2.trans h1.2.2⟩
  obtain ⟨n, ok, hl, ho, hp⟩ := h2.2.1
  refine ⟨n, ok, hl, ?_, ?_⟩
  · show ((rollSize (rollDate w c.date c.okDate) c.okSize).sink.file.putLine c.msg).isOpen = ok
    rw [← ho]
    unfold OfStream.putLine
    split <;> rfl
  · intro hk
    show ((rollSize (rollDate w c.date c.okDate) c.okSize).sink.file.putLine c.msg).path = n
    rw [← hp hk]
    unfold OfStream.putLine
    split <;> rfl

theorem writeAll_inv (calls : List WriteCall) : ∀ (w : FileWorld), Hist w → Cur w →
    Hist (writeAll w calls) ∧ Cur (writeAll w calls) ∧
    (writeAll w calls).sink.maxFiles = w.sink.maxFiles := by
  induction calls with
  | nil => intro w h hc; exact ⟨h, hc, rfl⟩
  | cons c rest ih =>
    intro w h hc
    have h1 := write_inv w c h hc
    have h2 := ih (write w c) h1.1 h1.2.1
    exact ⟨h2.1, h2.2.1, h2.2.2.trans h1.2.2⟩

theorem reached_inv (basename : String) (maxSize maxFiles : Nat) (today : String)
    (disk : List String) (ok : Bool) (calls : List WriteCall) :
    Hist (reached basename maxSize maxFiles today disk ok calls) ∧
    Cur (reached basename maxSize maxFiles today disk ok calls) ∧
    (reached basename maxSize maxFiles today disk ok calls).sink.maxFiles = maxFiles := by
  have h0 := hist_cur_construct basename maxSize maxFiles today disk ok
  have h := writeAll_inv calls _ h0.1 h0.2.1
  exact ⟨h.1, h.2.1, h.2.2.trans h0.2.2⟩

end FileWorld

namespace FileWorld

theorem sizeReached_open (s : FileSink) (h : s.file.isOpen = true) :
    s.sizeReached = decide (s.maxSize ≤ s.file.written.utf8ByteSize) := by
  have hp : s.file.tellp = (s.file.written.utf8ByteSize : Int) := by
    simp [OfStream.tellp, h]
  unfold FileSink.sizeReached
  rw [hp, if_neg (by omega)]
  simp

theorem sizeReached_closed (s : FileSink) (h : s.file.isOpen = false) :
    s.sizeReached = true := by
  have hp : s.file.tellp = -1 := by
    simp [OfStream.tellp, h]
  unfold FileSink.sizeReached
  rw [hp, if_pos (by omega)]

theorem sizeReached_fresh (s : FileSink) (name : String) (hpos : 0 < s.maxSize) :
    ({ s with file := OfStream.openTrunc name } : FileSink).sizeReached = false := by
  rw [sizeReached_open _ rfl]
  have : (OfStream.openTrunc name).written.utf8ByteSize = 0 := by
    show ("" : String).utf8ByteSize = 0
    decide
  show decide (s.maxSize ≤ (OfStream.openTrunc name).written.utf8ByteSize) = false
  rw [this]
  simp
  omega

end FileWorld

namespace FileWorld

theorem fileName_zero (w : FileWorld) (date : String) :
    (w.setTarget date 0).sink.fileName = w.sink.basename ++ "_" ++ date ++ ".log" := by
  simp [setTarget, FileSink.fileName]

theorem fileName_one (w : FileWorld) (date : String) :
    (w.setTarget date 1).sink.fileName = w.sink.basename ++ "_" ++ date ++ "_1" ++ ".log" := by
  have h1 : toString (1 : Int) = "1" := by decide
  simp only [setTarget, FileSink.fileName, gt_iff_lt, zero_lt_one, if_true, h1]
  have h2 : "_" ++ "1" = "_1" := by decide
  rw [h2]

theorem rollDate_changed (w : FileWorld) (today : String) (ok : Bool)
    (hne : today ≠ w.sink.currentDate) :
    rollDate w today ok = openNewFile (w.setTarget today 0) ok := by
  simp [rollDate, hne]

end FileWorld

/-- C6, counterexample: (1) with `maxSize_ = 0` a write on a new date key
leaves the rotation index at 1 and the line in `a_20250102_1.log`, not at 0
and in `a_20250102.log`: the size test that follows the date test finds the
empty new file already at the threshold and rotates once more.  (2) With
`maxSize_ = 1000` and a basename whose files cannot be opened, a write on a new
date key ends with the index at 1, no stream open and no file on disk: after
the failed open the size test succeeds. -/
theorem C6_date_reset_counterexample :
    ("20250102" ≠ FileWorld.zeroSizeSink.sink.currentDate ∧
      (FileWorld.zeroSizeSink.write
        { date := "20250102", msg := "x", okDate := true, okSize := true }).sink.currentDate
        = "20250102" ∧
      (FileWorld.zeroSizeSink.write
        { date := "20250102", msg := "x", okDate := true, okSize := true }).sink.fileIndex
        = 1 ∧
      (FileWorld.zeroSizeSink.write
        { date := "20250102", msg := "x", okDate := true, okSize := true }).sink.file.path
        = "a_20250102_1.log" ∧
      ¬ ((FileWorld.zeroSizeSink.write
          { date := "20250102", msg := "x", okDate := true, okSize := true }).sink.fileIndex
          = 0 ∧
        (FileWorld.zeroSizeSink.write
          { date := "20250102", msg := "x", okDate := true, okSize := true }).sink.file.path
          = "a_20250102.log")) ∧
    ("20250102" ≠ FileWorld.noDirSink.sink.currentDate ∧
      0 < FileWorld.noDirSink.sink.maxSize ∧
      (FileWorld.noDirSink.write
        { date := "20250102", msg := "x", okDate := false, okSize := false }).sink.fileIndex
        = 1 ∧
      (FileWorld.noDirSink.write
        { date := "20250102", msg := "x", okDate := false, okSize := false }).sink.file.isOpen
        = false ∧
      (FileWorld.noDirSink.write
        { date := "20250102", msg := "x", okDate := false, okSize := false }).disk = []) := by
  decide

/-- C6, amended: for every basename and `maxFiles_`, every `maxSize_ > 0` and
every state, a write whose date key differs from the stored one and whose open
of `basename_newdate.log` succeeds stores the new date, leaves the rotation
index at 0, makes exactly that one open, and the line is the only content of
that file.  When that open fails (whatever `maxSize_` is), the date is stored
all the same, the size test then succeeds on the closed stream, the index
ends at 1 and a second open is made, of `basename_newdate_1.log`, which gets
the line if it succeeds. -/
theorem C6_date_reset (w : FileWorld) (c : WriteCall)
    (hne : c.date ≠ w.sink.currentDate) :
    (0 < w.sink.maxSize → c.okDate = true →
      (w.write c).sink.currentDate = c.date ∧
      (w.write c).sink.fileIndex = 0 ∧
      (w.write c).sink.file =
        { isOpen := true, path := w.sink.basename ++ "_" ++ c.date ++ ".log",
          written := c.msg ++ "\n" } ∧
      (w.write c).opened =
        w.opened ++ [(w.sink.basename ++ "_" ++ c.date ++ ".log", true)]) ∧
    (c.okDate = false →
      (w.write c).sink.currentDate = c.date ∧
      (w.write c).sink.fileIndex = 1 ∧
      (w.write c).opened =
        w.opened ++ [(w.sink.basename ++ "_" ++ c.date ++ ".log", false),
          (w.sink.basename ++ "_" ++ c.date ++ "_1" ++ ".log", c.okSize)] ∧
      (c.okSize = true →
        (w.write c).sink.file =
          { isOpen := true, path := w.sink.basename ++ "_" ++ c.date ++ "_1" ++ ".log",
            written := c.msg ++ "\n" }) ∧
      (c.okSize = false → (w.write c).sink.file.isOpen = false)) := by
  have hd := FileWorld.rollDate_changed w c.date c.okDate hne
  have hp := FileWorld.openNewFile_params (w.setTarget c.date 0) c.okDate
  have ho := FileWorld.openNewFile_opened (w.setTarget c.date 0) c.okDate
  rw [← hd] at hp ho
  constructor
  · intro hpos hok
    have hf := FileWorld.openNewFile_file_ok (w.setTarget c.date 0)
    rw [hok] at hd ho
    rw [← hd] at hf
    have hs : (FileWorld.rollDate w c.date c.okDate).sink.sizeReached = false := by
      rw [hok]
      have := FileWorld.sizeReached_fresh (FileWorld.rollDate w c.date true).sink
        (w.setTarget c.date 0).sink.fileName (by rw [hok] at hp; rw [hp.2.1]; exact hpos)
      rw [← hf] at this
      exact this
    have hw : w.write c =
        { FileWorld.rollDate w c.date c.okDate with
          sink := { (FileWorld.rollDate w c.date c.okDate).sink with
            file := (FileWorld.rollDate w c.date c.okDate).sink.file.putLine c.msg } } := by
      simp [FileWorld.write, FileWorld.rollSize, hs]
    rw [hw]
    refine ⟨hp.2.2.2.1, hp.2.2.2.2, ?_, ?_⟩
    · show OfStream.putLine _ c.msg = _
      rw [hok, hf, FileWorld.fileName_zero]
      simp [OfStream.putLine, OfStream.openTrunc]
    · show (FileWorld.rollDate w c.date c.okDate).opened = _
      rw [hok, ho, FileWorld.fileName_zero]
      rfl
  · intro hok
    have hcl := FileWorld.openNewFile_file_fail (w.setTarget c.date 0)
    rw [hok] at hd ho hp
    rw [← hd] at hcl
    have hs : (FileWorld.rollDate w c.date c.okDate).sink.sizeReached = true := by
      rw [hok]
      exact FileWorld.sizeReached_closed _ hcl
    have hone : intInc 0 = 1 := by decide
    have htarget : (FileWorld.rollDate w c.date false).setTarget
        (FileWorld.rollDate w c.date false).sink.currentDate
        (intInc (FileWorld.rollDate w c.date false).sink.fileIndex) =
        (FileWorld.rollDate w c.date false).setTarget c.date 1 := by
      rw [hp.2.2.2.1, hp.2.2.2.2]
      show (FileWorld.rollDate w c.date false).setTarget c.date (intInc 0) = _
      rw [hone]
    have hname : ((FileWorld.rollDate w c.date false).setTarget c.date 1).sink.fileName =
        w.sink.basename ++ "_" ++ c.date ++ "_1" ++ ".log" := by
      rw [FileWorld.fileName_one, hp.1]
      rfl
    have hw : w.write c =
        { FileWorld.openNewFile ((FileWorld.rollDate w c.date false).setTarget c.date 1)
            c.okSize with
          sink := { (FileWorld.openNewFile
              ((FileWorld.rollDate w c.date false).setTarget c.date 1) c.okSize).sink with
            file := (FileWorld.openNewFile
              ((FileWorld.rollDate w c.date false).setTarget c.date 1)
                c.okSize).sink.file.putLine c.msg } } := by
      rw [hok] at hs
      simp only [FileWorld.write, FileWorld.rollSize, hok, hs, if_true, htarget]
    rw [hw]
    have hp2 := FileWorld.openNewFile_params
      ((FileWorld.rollDate w c.date false).setTarget c.date 1) c.okSize
    refine ⟨hp2.2.2.2.1, hp2.2.2.2.2, ?_, ?_, ?_⟩
    · show (FileWorld.openNewFile _ c.okSize).opened = _
      rw [FileWorld.openNewFile_opened, hname]
      show (FileWorld.rollDate w c.date false).opened ++ _ = _
      rw [ho, FileWorld.fileName_zero]
      simp
      rfl
    · intro hk
      show OfStream.putLine _ c.msg = _
      rw [hk, FileWorld.openNewFile_file_ok, hname]
      simp [OfStream.putLine, OfStream.openTrunc]
    · intro hk
      show (OfStream.putLine _ c.msg).isOpen = false
      rw [hk]
      have := FileWorld.openNewFile_file_fail
        ((FileWorld.rollDate w c.date false).setTarget c.date 1)
      simp [OfStream.putLine, this]

/-- Witness for C6: the sink with `maxSize_ = 4` moves to 2025-01-02, the open
succeeding; and the sink whose files cannot be opened moves to 2025-01-02, the
first open failing and the second, of the file with index 1, succeeding. -/
theorem C6_date_reset_witness :
    ("20250102" ≠ FileWorld.smallSinkFull.sink.currentDate ∧
      0 < FileWorld.smallSinkFull.sink.maxSize ∧
      (FileWorld.smallSinkFull.write
        { date := "20250102", msg := "x", okDate := true, okSize := true }).sink.currentDate
        = "20250102" ∧
      (FileWorld.smallSinkFull.write
        { date := "20250102", msg := "x", okDate := true, okSize := true }).sink.fileIndex
        = 0 ∧
      (FileWorld.smallSinkFull.write
        { date := "20250102", msg := "x", okDate := true, okSize := true }).sink.file =
        { isOpen := true, path := "a" ++ "_" ++ "20250102" ++ ".log",
          written := "x" ++ "\n" }) ∧
    ("20250102" ≠ FileWorld.noDirSink.sink.currentDate ∧
      (FileWorld.noDirSink.write
        { date := "20250102", msg := "x", okDate := false, okSize := true }).sink.fileIndex
        = 1 ∧
      (FileWorld.noDirSink.write
        { date := "20250102", msg := "x", okDate := false, okSize := true }).sink.file =
        { isOpen := true, path := "nodir/a" ++ "_" ++ "20250102" ++ "_1" ++ ".log",
          written := "x" ++ "\n" }) :=
  ⟨⟨by decide, by decide,
    ((C6_date_reset FileWorld.smallSinkFull
      { date := "20250102", msg := "x", okDate := true, okSize := true } (by decide)).1
      (by decide) rfl).1,
    ((C6_date_reset FileWorld.smallSinkFull
      { date := "20250102", msg := "x", okDate := true, okSize := true } (by decide)).1
      (by decide) rfl).2.1,
    ((C6_date_reset FileWorld.smallSinkFull
      { date := "20250102", msg := "x", okDate := true, okSize := true } (by decide)).1
      (by decide) rfl).2.2.1⟩,
   ⟨by decide,
    ((C6_date_reset FileWorld.noDirSink
      { date := "20250102", msg := "x", okDate := false, okSize := true } (by decide)).2
      rfl).2.1,
    ((C6_date_reset FileWorld.noDirSink
      { date := "20250102", msg := "x", okDate := false, okSize := true } (by decide)).2
      rfl).2.2.2.1 rfl⟩⟩

theorem digitVal_digitChar (k : Nat) (h : k < 10) : digitVal (Nat.digitChar k) = k := by
  interval_cases k <;> decide

theorem digitsVal_snoc (cs : List Char) (c : Char) :
    digitsVal (cs ++ [c]) = digitsVal cs * 10 + digitVal c := by
  simp [digitsVal, List.foldl_append]

theorem toDigitsCore_val : ∀ (fuel n : Nat) (ds : List Char), n < fuel →
    ∃ pre, Nat.toDigitsCore 10 fuel n ds = pre ++ ds ∧ digitsVal pre = n := by
  intro fuel
  induction fuel with
  | zero => intro n ds h; omega
  | succ f ih =>
    intro n ds h
    by_cases h0 : n / 10 = 0
    · refine ⟨[Nat.digitChar (n % 10)], ?_, ?_⟩
      · simp [Nat.toDigitsCore, h0]
      · have hlt : n < 10 := by omega
        have := digitsVal_snoc [] (Nat.digitChar (n % 10))
        simp only [List.nil_append] at this
        rw [this, digitVal_digitChar _ (Nat.mod_lt _ (by omega))]
        simp [digitsVal]
        omega
    · obtain ⟨pre, hpre, hval⟩ := ih (n / 10) (Nat.digitChar (n % 10) :: ds) (by omega)
      refine ⟨pre ++ [Nat.digitChar (n % 10)], ?_, ?_⟩
      · simp [Nat.toDigitsCore, h0, hpre]
      · rw [digitsVal_snoc, hval, digitVal_digitChar _ (Nat.mod_lt _ (by omega))]
        omega

theorem natRepr_inj (a b : Nat) (h : Nat.repr a = Nat.repr b) : a = b := by
  have hl : Nat.toDigits 10 a = Nat.toDigits 10 b := by
    have := congrArg String.data h
    simpa [Nat.repr, List.asString] using this
  obtain ⟨pa, hpa, hva⟩ := toDigitsCore_val (a + 1) a [] (by omega)
  obtain ⟨pb, hpb, hvb⟩ := toDigitsCore_val (b + 1) b [] (by omega)
  simp only [List.append_nil] at hpa hpb
  have e : pa = pb := by
    rw [← hpa, ← hpb]
    exact hl
  rw [← hva, ← hvb, e]

theorem intToString_inj (i j : Int) (hi : 0 < i) (hj : 0 < j)
    (h : toString i = toString j) : i = j := by
  obtain ⟨a, rfl⟩ := Int.eq_ofNat_of_zero_le (Int.le_of_lt hi)
  obtain ⟨b, rfl⟩ := Int.eq_ofNat_of_zero_le (Int.le_of_lt hj)
  have : Nat.repr a = Nat.repr b := h
  rw [natRepr_inj a b this]

theorem suffix_inj (i j : Int) (hi : 0 ≤ i) (hj : 0 ≤ j)
    (h : (if i > 0 then "_" ++ toString i else "") = (if j > 0 then "_" ++ toString j else "")) :
    i = j := by
  by_cases h1 : i > 0
  · by_cases h2 : j > 0
    · rw [if_pos h1, if_pos h2] at h
      have hd := congrArg String.data h
      simp only [String.data_append] at hd
      have := List.append_cancel_left hd
      exact intToString_inj i j h1 h2 (String.ext this)
    · rw [if_pos h1, if_neg h2] at h
      have hd := congrArg String.length h
      simp [String.length_append] at hd
      have : ("_" : String).length = 1 := by decide
      omega
  · by_cases h2 : j > 0
    · rw [if_neg h1, if_pos h2] at h
      have hd := congrArg String.length h
      simp [String.length_append] at hd
      have : ("_" : String).length = 1 := by decide
      omega
    · omega

theorem fileName_inj (b d1 d2 : String) (i1 i2 : Int) (hl : d1.length = d2.length)
    (h1 : 0 ≤ i1) (h2 : 0 ≤ i2)
    (h : b ++ "_" ++ d1 ++ (if i1 > 0 then "_" ++ toString i1 else "") ++ ".log" =
      b ++ "_" ++ d2 ++ (if i2 > 0 then "_" ++ toString i2 else "") ++ ".log") :
    d1 = d2 ∧ i1 = i2 := by
  have hd := congrArg String.data h
  simp only [String.data_append, List.append_assoc] at hd
  have hd1 := List.append_cancel_left (List.append_cancel_left hd)
  have hd2 := List.append_inj hd1 hl
  refine ⟨String.ext hd2.1, suffix_inj i1 i2 h1 h2 ?_⟩
  exact String.ext (List.append_cancel_right hd2.2)

namespace FileWorld

theorem fileName_setTarget (w : FileWorld) (d : String) (i : Int) :
    (w.setTarget d i).sink.fileName =
      w.sink.basename ++ "_" ++ d ++ (if i > 0 then "_" ++ toString i else "") ++ ".log" := rfl

theorem names_openNewFile (w : FileWorld) (ok : Bool) :
    (openNewFile w ok).names = w.names ++ [w.sink.fileName] := by
  unfold names
  rw [openNewFile_opened]
  simp

theorem named_open (w : FileWorld) (past past2 : List String) (L : Nat) (d2 : String)
    (i2 : Int) (ok : Bool) (hN : Named w past L) (hL : d2.length = L) (hi : 0 ≤ i2)
    (htrans : ∀ d i, ((d = w.sink.currentDate ∧ i ≤ w.sink.fileIndex) ∨
        (d ∈ past ∧ d ≠ w.sink.currentDate)) →
      ¬ (d = d2 ∧ i = i2) ∧ ((d = d2 ∧ i ≤ i2) ∨ (d ∈ past2 ∧ d ≠ d2))) :
    Named ((w.setTarget d2 i2).openNewFile ok) past2 L := by
  obtain ⟨_, _, hnd, hall⟩ := hN
  have hp := openNewFile_params (w.setTarget d2 i2) ok
  have hidx : ((w.setTarget d2 i2).openNewFile ok).sink.fileIndex = i2 := hp.2.2.2.2
  have hdate : ((w.setTarget d2 i2).openNewFile ok).sink.currentDate = d2 := hp.2.2.2.1
  have hbase : ((w.setTarget d2 i2).openNewFile ok).sink.basename = w.sink.basename := hp.1
  have hfn : ∀ d i, (((w.setTarget d2 i2).openNewFile ok).setTarget d i).sink.fileName =
      (w.setTarget d i).sink.fileName := by
    intro d i
    rw [fileName_setTarget, fileName_setTarget, hbase]
  have hnames : ((w.setTarget d2 i2).openNewFile ok).names =
      w.names ++ [(w.setTarget d2 i2).sink.fileName] := names_openNewFile _ ok
  refine ⟨by rw [hidx]; exact hi, by rw [hdate]; exact hL, ?_, ?_⟩
  · rw [hnames]
    apply List.Nodup.append hnd (List.nodup_singleton _)
    intro n hn hn2
    rw [List.mem_singleton] at hn2
    obtain ⟨d, i, hname, hdl, hi0, hcond⟩ := hall n hn
    rw [hn2, fileName_setTarget, fileName_setTarget] at hname
    have := fileName_inj w.sink.basename d2 d i2 i (by rw [hL, hdl]) hi hi0 hname
    exact (htrans d i hcond).1 ⟨this.1.symm, this.2.symm⟩
  · intro n hn
    rw [hnames] at hn
    rw [hidx, hdate]
    rcases List.mem_append.mp hn with hold | hnew
    · obtain ⟨d, i, hname, hdl, hi0, hcond⟩ := hall n hold
      exact ⟨d, i, by rw [hfn]; exact hname, hdl, hi0, (htrans d i hcond).2⟩
    · rw [List.mem_singleton] at hnew
      exact ⟨d2, i2, by rw [hfn]; exact hnew, hL, hi, Or.inl ⟨rfl, Int.le_refl _⟩⟩

theorem named_rollDate (w : FileWorld) (past : List String) (L : Nat) (today : String)
    (ok : Bool) (hN : Named w past L) (hL : today.length = L)
    (hret : today ≠ w.sink.currentDate → today ∉ past) :
    Named (rollDate w today ok) (if today = w.sink.currentDate then past
      else w.sink.currentDate :: past) L ∧
    (rollDate w today ok).sink.currentDate = today ∧
    (rollDate w today ok).sink.fileIndex ≤ w.sink.fileIndex := by
  by_cases hne : today = w.sink.currentDate
  · have : rollDate w today ok = w := by simp [rollDate, hne]
    rw [this, if_pos hne]
    exact ⟨hN, hne.symm, Int.le_refl _⟩
  · rw [rollDate_changed w today ok hne, if_neg hne]
    have hp := openNewFile_params (w.setTarget today 0) ok
    refine ⟨?_, hp.2.2.2.1, ?_⟩
    · apply named_open w past _ L today 0 ok hN hL (Int.le_refl _)
      intro d i hcond
      rcases hcond with ⟨hd, hi⟩ | ⟨hd, hdn⟩
      · have hdt : d ≠ today := fun e => hne (e.symm.trans hd)
        refine ⟨fun e => hdt e.1, Or.inr ⟨?_, hdt⟩⟩
        rw [hd]
        exact List.mem_cons_self _ _
      · have hdt : d ≠ today := fun e => hret hne (e ▸ hd)
        exact ⟨fun e => hdt e.1, Or.inr ⟨List.mem_cons_of_mem _ hd, hdt⟩⟩
    · rw [hp.2.2.2.2]
      exact hN.1

theorem named_rollSize (w : FileWorld) (past : List String) (L : Nat) (ok : Bool)
    (hN : Named w past L) (hb : w.sink.fileIndex < INT_MAX) :
    Named (rollSize w ok) past L ∧
    (rollSize w ok).sink.currentDate = w.sink.currentDate ∧
    (rollSize w ok).sink.fileIndex ≤ w.sink.fileIndex + 1 := by
  unfold rollSize
  split
  · rw [intInc_lt _ hb]
    have hp := openNewFile_params (w.setTarget w.sink.currentDate (w.sink.fileIndex + 1)) ok
    refine ⟨?_, hp.2.2.2.1, by rw [hp.2.2.2.2]; exact Int.le_refl _⟩
    apply named_open w past past L w.sink.currentDate (w.sink.fileIndex + 1) ok hN hN.2.1
      (by have := hN.1; omega)
    intro d i hcond
    rcases hcond with ⟨hd, hi⟩ | ⟨hd, hdn⟩
    · exact ⟨fun e => by omega, Or.inl ⟨hd, by omega⟩⟩
    · exact ⟨fun e => hdn e.1, Or.inr ⟨hd, hdn⟩⟩
  · exact ⟨hN, rfl, by omega⟩

theorem named_write (w : FileWorld) (past : List String) (L : Nat) (c : WriteCall)
    (hN : Named w past L) (hb : w.sink.fileIndex < INT_MAX) (hL : c.date.length = L)
    (hret : c.date ≠ w.sink.currentDate → c.date ∉ past) :
    Named (write w c) (if c.date = w.sink.currentDate then past
      else w.sink.currentDate :: past) L ∧
    (write w c).sink.currentDate = c.date ∧
    (write w c).sink.fileIndex ≤ w.sink.fileIndex + 1 := by
  have h1 := named_rollDate w past L c.date c.okDate hN hL hret
  have h2 := named_rollSize (rollDate w c.date c.okDate) _ L c.okSize h1.1 (by omega)
  refine ⟨h2.1, by rw [← h1.2.1]; exact h2.2.1, ?_⟩
  have : (write w c).sink.fileIndex =
      (rollSize (rollDate w c.date c.okDate) c.okSize).sink.fileIndex := rfl
  omega

theorem named_writeAll (L : Nat) (calls : List WriteCall) :
    ∀ (w : FileWorld) (past : List String), Named w past L →
    w.sink.fileIndex + calls.length < INT_MAX →
    (∀ c ∈ calls, c.date.length = L) →
    noReturn w.sink.currentDate past (calls.map WriteCall.date) = true →
    (writeAll w calls).names.Nodup := by
  induction calls with
  | nil => intro w past hN _ _ _; exact hN.2.2.1
  | cons c rest ih =>
    intro w past hN hb hL hret
    simp only [List.length_cons, Nat.cast_add, Nat.cast_one] at hb
    have hLc := hL c (List.mem_cons_self _ _)
    have hstep := named_write w past L c hN (by omega) hLc (by
      intro hne hmem
      simp only [List.map_cons, noReturn, if_neg hne, Bool.and_eq_true, Bool.not_eq_true',
        List.contains_eq_any_beq, List.any_eq_false, beq_iff_eq] at hret
      exact hret.1 c.date hmem rfl)
    show (writeAll (write w c) rest).names.Nodup
    apply ih (write w c) _ hstep.1 (by omega)
      (fun x hx => hL x (List.mem_cons_of_mem _ hx))
    rw [hstep.2.1]
    simp only [List.map_cons, noReturn] at hret
    by_cases hne : c.date = w.sink.currentDate
    · rw [if_pos hne] at hret ⊢
      rw [hne]
      exact hret
    · rw [if_neg hne] at hret ⊢
      simp only [Bool.and_eq_true] at hret
      exact hret.2

theorem named_construct (basename : String) (maxSize maxFiles : Nat) (today : String)
    (disk : List String) (ok : Bool) :
    Named (construct basename maxSize maxFiles today disk ok) [] today.length ∧
    (construct basename maxSize maxFiles today disk ok).sink.fileIndex = 0 ∧
    (construct basename maxSize maxFiles today disk ok).sink.currentDate = today := by
  have hp := openNewFile_params
    { sink := { basename := basename, maxSize := maxSize, maxFiles := maxFiles,
                file := OfStream.closed, currentDate := today, fileIndex := 0,
                recentFiles := [] },
      disk := disk, opened := [] } ok
  have hn := names_openNewFile
    { sink := { basename := basename, maxSize := maxSize, maxFiles := maxFiles,
                file := OfStream.closed, currentDate := today, fileIndex := 0,
                recentFiles := [] },
      disk := disk, opened := [] } ok
  unfold construct
  refine ⟨⟨by rw [hp.2.2.2.2], by rw [hp.2.2.2.1], ?_, ?_⟩, hp.2.2.2.2, hp.2.2.2.1⟩
  · rw [hn]
    simp [names]
  · intro n hmem
    rw [hn] at hmem
    simp only [names, List.map_nil, List.nil_append, List.mem_singleton] at hmem
    refine ⟨today, 0, ?_, rfl, Int.le_refl _, Or.inl ⟨by rw [hp.2.2.2.1], by rw [hp.2.2.2.2]⟩⟩
    rw [hmem, fileName_setTarget, hp.1]
    rfl

theorem spaced_of_nodup (M : Nat) (l : List String) (h : l.Nodup) : Spaced M l := by
  unfold Spaced
  have hr : l.reverse.Nodup := List.nodup_reverse.mpr h
  generalize l.reverse = r at hr
  induction r with
  | nil => rfl
  | cons n older ih =>
    have hc := List.nodup_cons.mp hr
    simp only [spacedFrom, Bool.and_eq_true, Bool.not_eq_true', ih hc.2, and_true]
    simp only [List.contains_eq_any_beq, List.any_eq_false, beq_iff_eq]
    intro x hx e
    exact hc.1 (e ▸ List.mem_of_mem_take hx)

theorem calm_spaced (basename : String) (maxSize maxFiles : Nat) (today : String)
    (disk : List String) (ok : Bool) (calls : List WriteCall) (M : Nat)
    (hcalm : Calm today calls) :
    (reached basename maxSize maxFiles today disk ok calls).names.Nodup ∧
    Spaced M (reached basename maxSize maxFiles today disk ok calls).names := by
  have h0 := named_construct basename maxSize maxFiles today disk ok
  have hnd : (reached basename maxSize maxFiles today disk ok calls).names.Nodup := by
    apply named_writeAll today.length calls _ [] h0.1
    · rw [h0.2.1]
      have := hcalm.2.2
      omega
    · exact hcalm.1
    · rw [h0.2.2]
      exact hcalm.2.1
  exact ⟨hnd, spaced_of_nodup M _ hnd⟩

end FileWorld

namespace FileWorld

theorem hist_length (w : FileWorld) (h : Hist w) :
    w.sink.recentFiles.length ≤ w.sink.maxFiles := by
  rw [h.1, List.length_map, recentLog_length]
  omega

theorem hist_recent_names (w : FileWorld) (h : Hist w) :
    w.sink.recentFiles = w.names.drop (w.names.length - w.sink.maxFiles) := by
  rw [h.1, names_drop]

theorem mem_names_of_all_ok (l : List (String × Bool)) (hall : ∀ a ∈ l, a.2 = true)
    (p : String) : p ∈ l.map Prod.fst ↔ (p, true) ∈ l := by
  constructor
  · intro h
    obtain ⟨a, ha, hp⟩ := List.mem_map.mp h
    have := hall a ha
    have e : a = (p, true) := by
      cases a
      simp_all
    rw [← e]
    exact ha
  · intro h
    exact List.mem_map.mpr ⟨(p, true), h, rfl⟩

theorem current_last (w : FileWorld) (h : Hist w) (hc : Cur w) (hM : 1 ≤ w.sink.maxFiles) :
    ∃ n ok, w.opened.getLast? = some (n, ok) ∧
      w.sink.recentFiles.getLast? = some n ∧
      w.sink.file.isOpen = ok ∧
      (ok = true → w.sink.file.path = n ∧
        (Spaced w.sink.maxFiles w.names → n ∈ w.disk)) := by
  obtain ⟨n, ok, hl, ho, hp⟩ := hc
  have hne : w.opened ≠ [] := by
    intro e
    rw [e] at hl
    cases hl
  have hpos : 0 < w.opened.length := List.length_pos.mpr hne
  have hlog : w.recentLog.getLast? = some (n, ok) := by
    unfold recentLog
    rw [List.getLast?_drop, if_neg (by omega), hl]
  refine ⟨n, ok, hl, ?_, ho, ?_⟩
  · rw [h.1, List.getLast?_map, hlog]
    rfl
  · intro hk
    refine ⟨hp hk, fun hsp => ?_⟩
    subst hk
    exact ((h.2 hsp).2 n (List.mem_of_getLast?_eq_some hl)).mpr
      (List.mem_of_getLast?_eq_some hlog)

theorem openNewFile_current (w : FileWorld) (ok : Bool) (h : Hist w)
    (hM : 1 ≤ w.sink.maxFiles) :
    (openNewFile w ok).sink.recentFiles.getLast? = some w.sink.fileName ∧
    (openNewFile w ok).sink.file.isOpen = ok ∧
    (ok = true →
      (openNewFile w ok).sink.file.path = w.sink.fileName ∧
      (w.sink.fileName ∈ (openNewFile w ok).disk ↔
        ¬ (w.sink.recentFiles.length = w.sink.maxFiles ∧
           w.sink.recentFiles.head? = some w.sink.fileName))) := by
  have hlen := hist_length w h
  refine ⟨?_, ?_, ?_⟩
  · rw [openNewFile_recent]
    split
    · rename_i hc
      cases hr : w.sink.recentFiles with
      | nil => rw [hr] at hc; simp at hc; omega
      | cons a t => simp
    · simp
  · cases ok
    · exact openNewFile_file_fail w
    · rw [openNewFile_file_ok]; rfl
  · intro hk
    subst hk
    refine ⟨by rw [openNewFile_file_ok]; rfl, ?_⟩
    rw [openNewFile_disk]
    split
    · rename_i hc
      have hfull : w.sink.recentFiles.length = w.sink.maxFiles := by omega
      cases hr : w.sink.recentFiles with
      | nil => rw [hr] at hfull; simp at hfull; omega
      | cons a t =>
        rw [hr] at hfull
        simp only [if_true, mem_remove, mem_create, or_true, true_and, List.cons_append,
          List.headD_cons, List.head?_cons, Option.some.injEq, hfull, ne_eq]
        constructor
        · intro hne e
          exact hne e.symm
        · intro hne e
          exact hne e.symm
    · rename_i hc
      have hlt : w.sink.recentFiles.length ≠ w.sink.maxFiles := by omega
      simp [mem_create, hlt]

theorem allOk_openNewFile (w : FileWorld) (h : ∀ a ∈ w.opened, a.2 = true) :
    ∀ a ∈ (openNewFile w true).opened, a.2 = true := by
  rw [openNewFile_opened]
  intro a ha
  rcases List.mem_append.mp ha with h1 | h1
  · exact h a h1
  · rw [List.mem_singleton.mp h1]

theorem allOk_write (w : FileWorld) (c : WriteCall) (h : ∀ a ∈ w.opened, a.2 = true)
    (h1 : c.okDate = true) (h2 : c.okSize = true) :
    ∀ a ∈ (write w c).opened, a.2 = true := by
  have hd : ∀ a ∈ (rollDate w c.date c.okDate).opened, a.2 = true := by
    unfold rollDate
    split
    · rw [h1]; exact allOk_openNewFile _ h
    · exact h
  show ∀ a ∈ (rollSize (rollDate w c.date c.okDate) c.okSize).opened, a.2 = true
  unfold rollSize
  split
  · rw [h2]; exact allOk_openNewFile _ hd
  · exact hd

theorem allOk_writeAll (calls : List WriteCall) : ∀ (w : FileWorld),
    (∀ a ∈ w.opened, a.2 = true) → (∀ c ∈ calls, c.okDate = true ∧ c.okSize = true) →
    ∀ a ∈ (writeAll w calls).opened, a.2 = true := by
  induction calls with
  | nil => intro w h _; exact h
  | cons c rest ih =>
    intro w h hc
    have hcc := hc c (List.mem_cons_self _ _)
    exact ih (write w c) (allOk_write w c h hcc.1 hcc.2)
      (fun x hx => hc x (List.mem_cons_of_mem _ hx))

theorem allOk_reached (basename : String) (maxSize maxFiles : Nat) (today : String)
    (disk : List String) (ok : Bool) (calls : List WriteCall) (h : AllOk ok calls) :
    ∀ a ∈ (reached basename maxSize maxFiles today disk ok calls).opened, a.2 = true := by
  apply allOk_writeAll calls _ _ h.2
  rw [h.1]
  unfold construct
  apply allOk_openNewFile
  intro a ha
  simp at ha

end FileWorld

/-- C7, counterexample: (1) the sink with `maxFiles_ = 2` whose date key goes
2025-01-01, 2025-01-02, 2025-01-01, every open succeeding, has opened three
files; the two opened last are `a_20250102.log` and `a_20250101.log`, but
`a_20250101.log` does not exist: retention removed the oldest history entry,
which names the file just reopened.  (2) The sink with `maxFiles_ = 2` whose
opens all fail has made three opens after two writes, and neither of the two
paths opened last exists. -/
theorem C7_retention_counterexample :
    (FileWorld.clockBackSink.sink.maxFiles = 2 ∧
      FileWorld.clockBackSink.opened =
        [("a_20250101.log", true), ("a_20250102.log", true), ("a_20250101.log", true)] ∧
      FileWorld.clockBackSink.sink.maxFiles < FileWorld.clockBackSink.names.length ∧
      FileWorld.clockBackSink.names.drop (FileWorld.clockBackSink.names.length - 2) =
        ["a_20250102.log", "a_20250101.log"] ∧
      FileWorld.clockBackSink.disk = ["a_20250102.log"] ∧
      ¬ (∀ p ∈ FileWorld.clockBackSink.names,
          (p ∈ FileWorld.clockBackSink.disk ↔
            p ∈ FileWorld.clockBackSink.names.drop
              (FileWorld.clockBackSink.names.length - 2)))) ∧
    (FileWorld.noDirTwoWrites.sink.maxFiles = 2 ∧
      FileWorld.noDirTwoWrites.opened =
        [("nodir/a_20250101.log", false), ("nodir/a_20250101_1.log", false),
         ("nodir/a_20250101_2.log", false)] ∧
      FileWorld.noDirTwoWrites.sink.recentFiles =
        ["nodir/a_20250101_1.log", "nodir/a_20250101_2.log"] ∧
      FileWorld.noDirTwoWrites.disk = [] ∧
      ¬ (∀ p ∈ FileWorld.noDirTwoWrites.names,
          (p ∈ FileWorld.noDirTwoWrites.disk ↔
            p ∈ FileWorld.noDirTwoWrites.names.drop
              (FileWorld.noDirTwoWrites.names.length - 2)))) := by
  decide

/-- C7, amended: for every sink, every sequence of writes and every outcome of
the opens, after construction and after any write the history holds at most
`maxFiles_` entries, namely the paths of the opens made last (exactly
`maxFiles_` of them once more than `maxFiles_` opens have been made).  Provided
no path was opened again while it was still in the history, a path that the
sink has opened with success exists exactly when it is among the `maxFiles_`
opens made last and that open succeeded; so when moreover every open
succeeded, the files opened by the sink that exist are exactly the
`maxFiles_` opened last.  No path is opened again while still in the history
when the date keys all have the same length, a date key once left never comes
back, and fewer than `INT_MAX` writes are made. -/
theorem C7_retention (basename : String) (maxSize maxFiles : Nat) (today : String)
    (disk : List String) (ok : Bool) (calls : List WriteCall) (w : FileWorld)
    (hw : w = FileWorld.reached basename maxSize maxFiles today disk ok calls) :
    w.sink.recentFiles.length ≤ maxFiles ∧
    w.sink.recentFiles = w.names.drop (w.names.length - maxFiles) ∧
    (maxFiles < w.names.length → w.sink.recentFiles.length = maxFiles) ∧
    (FileWorld.Spaced maxFiles w.names →
      ∀ p, (p, true) ∈ w.opened →
        (p ∈ w.disk ↔ (p, true) ∈ w.opened.drop (w.opened.length - maxFiles))) ∧
    (FileWorld.Spaced maxFiles w.names → (∀ a ∈ w.opened, a.2 = true) →
      ∀ p ∈ w.names, (p ∈ w.disk ↔ p ∈ w.names.drop (w.names.length - maxFiles))) ∧
    (FileWorld.Calm today calls → FileWorld.Spaced maxFiles w.names) ∧
    (FileWorld.Calm today calls → FileWorld.AllOk ok calls →
      ∀ p ∈ w.names, (p ∈ w.disk ↔ p ∈ w.names.drop (w.names.length - maxFiles))) := by
  have h := FileWorld.reached_inv basename maxSize maxFiles today disk ok calls
  rw [← hw] at h
  have hM : w.sink.maxFiles = maxFiles := h.2.2
  have hr := FileWorld.hist_recent_names w h.1
  rw [hM] at hr
  have hdisk : FileWorld.Spaced maxFiles w.names →
      ∀ p, (p, true) ∈ w.opened →
        (p ∈ w.disk ↔ (p, true) ∈ w.opened.drop (w.opened.length - maxFiles)) := by
    intro hsp p hp
    have := (h.1.2 (by rw [hM]; exact hsp)).2 p hp
    unfold FileWorld.recentLog at this
    rw [hM] at this
    exact this
  have hexact : FileWorld.Spaced maxFiles w.names → (∀ a ∈ w.opened, a.2 = true) →
      ∀ p ∈ w.names, (p ∈ w.disk ↔ p ∈ w.names.drop (w.names.length - maxFiles)) := by
    intro hsp hall p hp
    have hp1 : (p, true) ∈ w.opened := (FileWorld.mem_names_of_all_ok _ hall p).mp hp
    rw [hdisk hsp p hp1]
    have hall2 : ∀ a ∈ w.opened.drop (w.opened.length - maxFiles), a.2 = true :=
      fun a ha => hall a (List.mem_of_mem_drop ha)
    rw [← FileWorld.mem_names_of_all_ok _ hall2 p]
    unfold FileWorld.names
    rw [List.length_map, List.map_drop]
  have hcalm : FileWorld.Calm today calls → FileWorld.Spaced maxFiles w.names := by
    intro hc
    rw [hw]
    exact (FileWorld.calm_spaced basename maxSize maxFiles today disk ok calls maxFiles hc).2
  refine ⟨?_, hr, ?_, hdisk, hexact, hcalm, ?_⟩
  · have := FileWorld.hist_length _ h.1
    rw [hM] at this
    exact this
  · intro hlt
    rw [hr, List.length_drop]
    omega
  · intro hc hok
    apply hexact (hcalm hc)
    rw [hw]
    exact FileWorld.allOk_reached basename maxSize maxFiles today disk ok calls hok

/-- Witness for C7: `maxFiles_ = 2`, all opens succeeding.  Four days, the date
key never coming back: the two files of the last two days are the ones that
exist.  And with the date key of the first day coming back on the fourth, when
its file has left the history: the files of the third day and of the first
exist. -/
theorem C7_retention_witness :
    (FileWorld.Calm "20250101"
        [{ date := "20250102", msg := "x", okDate := true, okSize := true },
         { date := "20250103", msg := "y", okDate := true, okSize := true },
         { date := "20250104", msg := "z", okDate := true, okSize := true }] ∧
      FileWorld.AllOk true
        [{ date := "20250102", msg := "x", okDate := true, okSize := true },
         { date := "20250103", msg := "y", okDate := true, okSize := true },
         { date := "20250104", msg := "z", okDate := true, okSize := true }] ∧
      FileWorld.fourDaySink.names =
        ["a_20250101.log", "a_20250102.log", "a_20250103.log", "a_20250104.log"] ∧
      FileWorld.fourDaySink.disk = ["a_20250103.log", "a_20250104.log"] ∧
      FileWorld.fourDaySink.sink.recentFiles.length = 2 ∧
      ∀ p ∈ FileWorld.fourDaySink.names,
        (p ∈ FileWorld.fourDaySink.disk ↔
          p ∈ FileWorld.fourDaySink.names.drop (FileWorld.fourDaySink.names.length - 2))) ∧
    (FileWorld.Spaced 2 FileWorld.lateReturnSink.names ∧
      (∀ a ∈ FileWorld.lateReturnSink.opened, a.2 = true) ∧
      FileWorld.lateReturnSink.names =
        ["a_20250101.log", "a_20250102.log", "a_20250103.log", "a_20250101.log"] ∧
      FileWorld.lateReturnSink.disk = ["a_20250103.log", "a_20250101.log"] ∧
      ∀ p ∈ FileWorld.lateReturnSink.names,
        (p ∈ FileWorld.lateReturnSink.disk ↔
          p ∈ FileWorld.lateReturnSink.names.drop
            (FileWorld.lateReturnSink.names.length - 2))) :=
  ⟨⟨by decide, by decide, by decide, by decide,
    (C7_retention "a" 1000 2 "20250101" [] true _ FileWorld.fourDaySink rfl).2.2.1
      (by decide),
    (C7_retention "a" 1000 2 "20250101" [] true _ FileWorld.fourDaySink rfl).2.2.2.2.2.2
      (by decide) (by decide)⟩,
   ⟨by decide, by decide, by decide, by decide,
    (C7_retention "a" 1000 2 "20250101" [] true _ FileWorld.lateReturnSink rfl).2.2.2.2.1
      (by decide) (by decide)⟩⟩

/-- C10, counterexample: with `maxFiles_ = 0` the constructor removes the file
it has just opened and the history is empty; and with `maxFiles_ = 2` and the
date key going back to 2025-01-01 the open file `a_20250101.log` is the last
history entry but has been removed (every open succeeding in both). -/
theorem C10_current_kept_counterexample :
    (FileWorld.zeroFilesSink.sink.file.isOpen = true ∧
      FileWorld.zeroFilesSink.sink.file.path = "a_20250101.log" ∧
      FileWorld.zeroFilesSink.sink.recentFiles = [] ∧
      FileWorld.zeroFilesSink.disk = [] ∧
      ¬ (FileWorld.zeroFilesSink.sink.recentFiles.getLast? =
            some FileWorld.zeroFilesSink.sink.file.path ∧
          FileWorld.zeroFilesSink.sink.file.path ∈ FileWorld.zeroFilesSink.disk)) ∧
    (FileWorld.clockBackSink.sink.file.isOpen = true ∧
      FileWorld.clockBackSink.sink.file.path = "a_20250101.log" ∧
      FileWorld.clockBackSink.sink.recentFiles = ["a_20250102.log", "a_20250101.log"] ∧
      FileWorld.clockBackSink.disk = ["a_20250102.log"] ∧
      ¬ (FileWorld.clockBackSink.sink.recentFiles.getLast? =
            some FileWorld.clockBackSink.sink.file.path ∧
          FileWorld.clockBackSink.sink.file.path ∈ FileWorld.clockBackSink.disk)) := by
  decide

/-- C10, amended: for every basename and `maxSize_`, every `maxFiles_ ≥ 1` and
every outcome of the opens.  After the constructor and after every write, the
path of the open made last is the last entry of the history; the stream is
open exactly when that open succeeded, and then it is open on that path, which
exists provided no path was opened again while it was still in the history
(as is the case when the date keys all have the same length, a date key once
left never comes back, and fewer than `INT_MAX` writes are made).
After every `openNewFile` run from such a state (whatever date key and index
it is run with), the name it built is the last entry of the history; the
stream is open exactly when the open succeeded, and then it is open on that
name, which has been removed exactly when it was also the oldest entry of a
full history. -/
theorem C10_current_kept (basename : String) (maxSize maxFiles : Nat) (today : String)
    (disk : List String) (ok : Bool) (calls : List WriteCall) (w : FileWorld)
    (hw : w = FileWorld.reached basename maxSize maxFiles today disk ok calls)
    (hM : 1 ≤ maxFiles) :
    (∃ n last, w.opened.getLast? = some (n, last) ∧
      w.sink.recentFiles.getLast? = some n ∧
      w.sink.file.isOpen = last ∧
      (last = true → w.sink.file.path = n ∧
        (FileWorld.Spaced maxFiles w.names → n ∈ w.disk) ∧
        (FileWorld.Calm today calls → n ∈ w.disk))) ∧
    (∀ (date : String) (index : Int) (ok2 : Bool),
      ((w.setTarget date index).openNewFile ok2).sink.recentFiles.getLast? =
        some (w.setTarget date index).sink.fileName ∧
      ((w.setTarget date index).openNewFile ok2).sink.file.isOpen = ok2 ∧
      (ok2 = true →
        ((w.setTarget date index).openNewFile ok2).sink.file.path =
          (w.setTarget date index).sink.fileName ∧
        ((w.setTarget date index).sink.fileName ∈
            ((w.setTarget date index).openNewFile ok2).disk ↔
          ¬ (w.sink.recentFiles.length = maxFiles ∧
             w.sink.recentFiles.head? = some (w.setTarget date index).sink.fileName)))) := by
  have h := FileWorld.reached_inv basename maxSize maxFiles today disk ok calls
  rw [← hw] at h
  have hMw : w.sink.maxFiles = maxFiles := h.2.2
  refine ⟨?_, ?_⟩
  · obtain ⟨n, last, hl, hr, ho, hp⟩ :=
      FileWorld.current_last w h.1 h.2.1 (by rw [hMw]; exact hM)
    rw [hMw] at hp
    refine ⟨n, last, hl, hr, ho, fun hk => ⟨(hp hk).1, (hp hk).2, fun hc => (hp hk).2 ?_⟩⟩
    rw [hw]
    exact (FileWorld.calm_spaced basename maxSize maxFiles today disk ok calls maxFiles hc).2
  · intro date index ok2
    have hh : FileWorld.Hist (w.setTarget date index) := h.1
    have := FileWorld.openNewFile_current (w.setTarget date index) ok2 hh
      (by show 1 ≤ w.sink.maxFiles; rw [hMw]; exact hM)
    have e1 : (w.setTarget date index).sink.recentFiles = w.sink.recentFiles := rfl
    have e2 : (w.setTarget date index).sink.maxFiles = maxFiles := hMw
    rw [e1, e2] at this
    exact this

/-- Witness for C10: four days, `maxFiles_ = 2`, every open succeeding; the
open file `a_20250104.log` is the last history entry and exists.  Opening
`a_20250105.log` from there leaves it on disk; opening `a_20250103.log`, the
oldest entry of the full history, leaves it removed. -/
theorem C10_current_kept_witness :
    (1 : Nat) ≤ 2 ∧
    FileWorld.Spaced 2 FileWorld.fourDaySink.names ∧
    FileWorld.fourDaySink.sink.file.isOpen = true ∧
    FileWorld.fourDaySink.sink.file.path = "a_20250104.log" ∧
    FileWorld.fourDaySink.sink.recentFiles.getLast? = some "a_20250104.log" ∧
    "a_20250104.log" ∈ FileWorld.fourDaySink.disk ∧
    "a_20250105.log" ∈
      ((FileWorld.fourDaySink.setTarget "20250105" 0).openNewFile true).disk ∧
    "a_20250103.log" ∉
      ((FileWorld.fourDaySink.setTarget "20250103" 0).openNewFile true).disk := by
  have h := C10_current_kept "a" 1000 2 "20250101" [] true _ FileWorld.fourDaySink rfl
    (by decide)
  obtain ⟨n, last, hl, hr, ho, hp⟩ := h.1
  have hlast : FileWorld.fourDaySink.opened.getLast? = some ("a_20250104.log", true) := by
    decide
  rw [hlast] at hl
  simp only [Option.some.injEq, Prod.mk.injEq] at hl
  obtain ⟨hn, hk⟩ := hl
  subst hn
  subst hk
  have h5 := (h.2 "20250105" 0 true).2.2 rfl
  have h3 := (h.2 "20250103" 0 true).2.2 rfl
  refine ⟨by decide, by decide, ho, (hp rfl).1, hr, (hp rfl).2.1 (by decide), ?_, ?_⟩
  · exact h5.2.mpr (by decide)
  · intro hmem
    exact h3.2.mp hmem (by decide)

/-! ## Theorems: TCPSink -/

namespace TCPSink

theorem sendLoop_head (sendRes : Nat → Int) (k : Nat) (sock : Int) (queue : List String) :
    (sendLoop sendRes k sock queue).calls.head? = queue.head? := by
  cases queue with
  | nil => rfl
  | cons msg rest =>
    unfold sendLoop
    split <;> rfl

theorem sendLoop_spec (sendRes : Nat → Int) (queue : List String) : ∀ (k : Nat) (sock : Int),
    ∃ n, n ≤ queue.length ∧
      (sendLoop sendRes k sock queue).queue = queue.drop n ∧
      (sendLoop sendRes k sock queue).calls = queue.take (n + 1) ∧
      (∀ i msg, i < n → queue.get? i = some msg →
        sendRes (k + i) = (msg.utf8ByteSize : Int)) ∧
      (n < queue.length → (sendLoop sendRes k sock queue).sock = -1 ∧
        ∃ msg, queue.get? n = some msg ∧ sendRes (k + n) ≠ (msg.utf8ByteSize : Int) ∧
          (sendLoop sendRes k sock queue).queue = msg :: queue.drop (n + 1)) ∧
      (n = queue.length → (sendLoop sendRes k sock queue).sock = sock ∧
        (sendLoop sendRes k sock queue).queue = []) := by
  induction queue with
  | nil =>
    intro k sock
    exact ⟨0, Nat.le_refl _, rfl, rfl, fun i msg hi => absurd hi (Nat.not_lt_zero _),
      fun h => absurd h (Nat.lt_irrefl _), fun _ => ⟨rfl, rfl⟩⟩
  | cons m rest ih =>
    intro k sock
    by_cases hs : sendMessage m (sendRes k) = true
    · obtain ⟨n, hn, hq, hc, hall, hfail, hdone⟩ := ih (k + 1) sock
      have hl : sendLoop sendRes k sock (m :: rest) =
          { sendLoop sendRes (k + 1) sock rest with
            calls := m :: (sendLoop sendRes (k + 1) sock rest).calls } := by
        rw [sendLoop]; simp [hs]
      refine ⟨n + 1, by simpa using hn, ?_, ?_, ?_, ?_, ?_⟩
      · rw [hl]; simpa using hq
      · rw [hl]; simp [hc]
      · intro i msg hi hget
        cases i with
        | zero =>
          simp only [List.get?_cons_zero, Option.some.injEq] at hget
          subst hget
          simpa [sendMessage] using hs
        | succ j =>
          have := hall j msg (by omega) (by simpa using hget)
          rw [← this]
          congr 1
          omega
      · intro hlt
        obtain ⟨hsock, msg, hget, hne, hq2⟩ := hfail (by simpa using hlt)
        refine ⟨by rw [hl]; exact hsock, msg, by simpa using hget, ?_, by rw [hl]; simpa using hq2⟩
        have e : k + (n + 1) = k + 1 + n := by omega
        rw [e]
        exact hne
      · intro he
        have := hdone (by simpa using he)
        rw [hl]
        exact this
    · have hl : sendLoop sendRes k sock (m :: rest) =
          { sock := -1, queue := m :: rest, calls := [m] } := by
        rw [sendLoop]; simp [hs]
      refine ⟨0, Nat.zero_le _, by rw [hl]; rfl, by rw [hl]; rfl,
        fun i msg hi => absurd hi (Nat.not_lt_zero _), ?_, ?_⟩
      · intro _
        refine ⟨by rw [hl], m, rfl, ?_, by rw [hl]; rfl⟩
        simpa [sendMessage] using hs
      · intro he
        simp at he

theorem runRound_head (s : TCPSink) (newSock connectRes : Int) (sendRes : Nat → Int)
    (h1 : 0 ≤ newSock) (h2 : 0 ≤ connectRes) :
    (runRound s newSock connectRes sendRes).2.head? = s.queue.head? := by
  have hc : (connectServer s newSock connectRes).2 = true ∧
      (connectServer s newSock connectRes).1.queue = s.queue := by
    unfold connectServer
    by_cases hs : s.sock ≥ 0
    · simp [hs]
    · rw [if_neg hs, if_neg (by omega), if_neg (by omega)]
      exact ⟨rfl, rfl⟩
  unfold runRound
  simp only [hc.1, if_true, hc.2]
  exact sendLoop_head _ _ _ _

theorem runRound_connect_failed (s : TCPSink) (newSock connectRes : Int)
    (sendRes : Nat → Int) (hs : s.sock < 0) (hf : newSock < 0 ∨ connectRes < 0) :
    (runRound s newSock connectRes sendRes).1.queue = s.queue ∧
    (runRound s newSock connectRes sendRes).2 = [] ∧
    (runRound s newSock connectRes sendRes).1.sock < 0 := by
  have hc : connectServer s newSock connectRes =
      (if newSock < 0 then ({ s with sock := newSock }, false)
       else ({ s with sock := -1 }, false)) := by
    unfold connectServer
    rw [if_neg (by omega)]
    by_cases h1 : newSock < 0
    · rw [if_pos h1, if_pos h1]
    · rw [if_neg h1, if_neg h1, if_pos (by omega)]
  unfold runRound
  rw [hc]
  by_cases h1 : newSock < 0
  · simp [h1]
  · simp [h1]

theorem write_queue (s : TCPSink) (msg : String) :
    (s.write msg).queue = s.queue ++ [msg] ∧ (s.write msg).sock = s.sock ∧
    (s.write msg).stopFlag = s.stopFlag :=
  ⟨rfl, rfl, rfl⟩

end TCPSink

/-- C8: for every outbound queue, socket and sequence of `send` results, the
send loop removes some number `n` of messages from the front, each of them
after a `send` that reported exactly its length; the messages handed to `send`
are the first `n + 1` of the queue (all of it when nothing failed), in order.
If it stops before the end, the send of message `n` reported something else,
the socket is `-1` and the queue is message `n` followed by the later messages
in their order; whatever `write` has appended in the meantime, the next round
of `run` in which `socket` and `connect` succeed hands that same message to
`send` first.  If it reaches the end, the queue is empty and the socket is as
it was. -/
theorem C8_send_loop (sendRes : Nat → Int) (k : Nat) (sock : Int) (queue : List String) :
    ∃ n, n ≤ queue.length ∧
      (TCPSink.sendLoop sendRes k sock queue).queue = queue.drop n ∧
      (TCPSink.sendLoop sendRes k sock queue).calls = queue.take (n + 1) ∧
      (∀ i msg, i < n → queue.get? i = some msg →
        sendRes (k + i) = (msg.utf8ByteSize : Int)) ∧
      (n < queue.length → (TCPSink.sendLoop sendRes k sock queue).sock = -1 ∧
        ∃ msg, queue.get? n = some msg ∧ sendRes (k + n) ≠ (msg.utf8ByteSize : Int) ∧
          (TCPSink.sendLoop sendRes k sock queue).queue = msg :: queue.drop (n + 1) ∧
          ∀ (more : List String) (newSock connectRes : Int) (sendRes2 : Nat → Int),
            0 ≤ newSock → 0 ≤ connectRes →
            (TCPSink.runRound
              { sock := (TCPSink.sendLoop sendRes k sock queue).sock,
                queue := (TCPSink.sendLoop sendRes k sock queue).queue ++ more,
                stopFlag := false } newSock connectRes sendRes2).2.head? = some msg) ∧
      (n = queue.length → (TCPSink.sendLoop sendRes k sock queue).sock = sock ∧
        (TCPSink.sendLoop sendRes k sock queue).queue = []) := by
  obtain ⟨n, hn, hq, hc, hall, hfail, hdone⟩ := TCPSink.sendLoop_spec sendRes queue k sock
  refine ⟨n, hn, hq, hc, hall, ?_, hdone⟩
  intro hlt
  obtain ⟨hsock, msg, hget, hne, hq2⟩ := hfail hlt
  refine ⟨hsock, msg, hget, hne, hq2, ?_⟩
  intro more newSock connectRes sendRes2 h1 h2
  rw [TCPSink.runRound_head _ newSock connectRes sendRes2 h1 h2]
  show ((TCPSink.sendLoop sendRes k sock queue).queue ++ more).head? = some msg
  rw [hq2]
  rfl

/-- Witness for C8: of three messages the second is sent short (1 of 3 bytes):
the first is removed, the socket is `-1`, the queue keeps the second and third,
and the round after the reconnect sends the second first, although a fourth
message was written in between. -/
theorem C8_send_loop_witness :
    TCPSink.sendLoop (fun k => if k = 0 then 2 else 1) 0 5 ["ab", "cde", "f"] =
      { sock := -1, queue := ["cde", "f"], calls := ["ab", "cde"] } ∧
    (TCPSink.runRound { sock := -1, queue := ["cde", "f"] ++ ["g"], stopFlag := false } 6 0
      (fun j => if j = 0 then 3 else 1)) =
      ({ sock := 6, queue := [], stopFlag := false }, ["cde", "f", "g"]) ∧
    ∀ (more : List String) (newSock connectRes : Int) (sendRes2 : Nat → Int),
      0 ≤ newSock → 0 ≤ connectRes →
      (TCPSink.runRound { sock := -1, queue := ["cde", "f"] ++ more, stopFlag := false }
        newSock connectRes sendRes2).2.head? = some "cde" := by
  refine ⟨by decide, by decide, ?_⟩
  obtain ⟨n, hn, hq, _, _, hfail, _⟩ :=
    C8_send_loop (fun k => if k = 0 then 2 else 1) 0 5 ["ab", "cde", "f"]
  have hr : TCPSink.sendLoop (fun k => if k = 0 then 2 else 1) 0 5 ["ab", "cde", "f"] =
      { sock := -1, queue := ["cde", "f"], calls := ["ab", "cde"] } := by decide
  rw [hr] at hq hfail
  have hn1 : n = 1 := by
    simp only [List.length_cons, List.length_nil] at hn
    interval_cases n <;> simp_all
  subst hn1
  obtain ⟨_, msg, hget, _, _, hround⟩ := hfail (by decide)
  have hm : msg = "cde" := by
    simp at hget
    exact hget.symm
  subst hm
  exact hround

/-! ## Theorems: poll loop -/

theorem SIZE_MOD_pos : 0 < SIZE_MOD := by decide

theorem sizeInc_sizeDec (n : Nat) (h : n < SIZE_MOD) : sizeInc (sizeDec n) = n := by
  have hp := SIZE_MOD_pos
  unfold sizeInc sizeDec
  by_cases h0 : n = 0
  · rw [if_pos h0, if_pos (by omega), h0]
  · rw [if_neg h0, if_neg (by omega)]
    omega

theorem get?_middle (done rest added : List PollFd) (e : PollFd) :
    (done ++ e :: rest ++ added).get? done.length = some e := by
  rw [List.append_assoc, List.get?_eq_getElem?, List.getElem?_append_right (Nat.le_refl _)]
  simp

theorem eraseIdx_middle (done rest added : List PollFd) (e : PollFd) :
    (done ++ e :: rest ++ added).eraseIdx done.length = done ++ rest ++ added := by
  rw [List.append_assoc, List.eraseIdx_append_of_length_le (Nat.le_refl _)]
  simp

theorem pollPass_done (env : PollEnv) (fuel : Nat) (st : PollState)
    (h : st.fds.length ≤ st.i) : pollPass env fuel st = some st := by
  cases fuel with
  | zero => simp [pollPass, Nat.not_lt.mpr h]
  | succ f =>
    rw [pollPass, List.get?_eq_none.mpr h]

theorem pollPass_step (env : PollEnv) (fuel : Nat) (st : PollState) (e : PollFd)
    (h : st.fds.get? st.i = some e) :
    pollPass env (fuel + 1) st = pollPass env fuel (pollBody env st e) := by
  rw [pollPass, h]

theorem pollPass_skip (env : PollEnv) : ∀ (added done : List PollFd) (st : PollState)
    (fuel : Nat), st.fds = done ++ added → st.i = done.length →
    (∀ e ∈ added, e.readable = false) → (done ++ added).length < SIZE_MOD →
    added.length ≤ fuel →
    pollPass env fuel st = some { st with i := (done ++ added).length } := by
  intro added
  induction added with
  | nil =>
    intro done st fuel hf hi _ _ _
    rw [pollPass_done env fuel st (by rw [hf, hi]; simp)]
    congr 1
    cases st
    simp only [List.append_nil] at hi ⊢
    simp_all
  | cons e added ih =>
    intro done st fuel hf hi hnr hb hfuel
    cases fuel with
    | zero => simp at hfuel
    | succ f =>
      have hget : st.fds.get? st.i = some e := by
        rw [hf, hi]
        have := get?_middle done added [] e
        simpa using this
      have hne : e.readable = false := hnr e (List.mem_cons_self _ _)
      have hinc : sizeInc st.i = st.i + 1 := by
        apply sizeInc_lt
        rw [hi]
        simp only [List.length_append, List.length_cons] at hb
        omega
      have hbody : pollBody env st e = { st with i := st.i + 1 } := by
        simp [pollBody, hne, hinc]
      rw [pollPass_step env f st e hget, hbody]
      rw [ih (done ++ [e]) { st with i := st.i + 1 } f (by simp [hf])
        (by simp [hi]) (fun x hx => hnr x (List.mem_cons_of_mem _ hx)) (by simpa using hb)
        (by simpa using hfuel)]
      simp

theorem pollPass_spec (env : PollEnv) : ∀ (rest done added : List PollFd) (st : PollState)
    (fuel : Nat), st.fds = done ++ rest ++ added → st.i = done.length →
    (∀ e ∈ added, e.readable = false) →
    (done ++ rest ++ added).length + rest.length < SIZE_MOD →
    2 * rest.length + added.length ≤ fuel →
    pollPass env fuel st = some
      { fds := done ++ (passSpec env rest done.length st.accepts st.reads).kept ++ added ++
          (passSpec env rest done.length st.accepts st.reads).added,
        i := (done ++ (passSpec env rest done.length st.accepts st.reads).kept ++ added ++
          (passSpec env rest done.length st.accepts st.reads).added).length,
        accepts := (passSpec env rest done.length st.accepts st.reads).accepts,
        reads := (passSpec env rest done.length st.accepts st.reads).reads,
        trace := st.trace ++ (passSpec env rest done.length st.accepts st.reads).trace,
        erasedAt := st.erasedAt ++
          (passSpec env rest done.length st.accepts st.reads).erasedAt } := by
  intro rest
  induction rest with
  | nil =>
    intro done added st fuel hf hi hnr hb hfuel
    rw [pollPass_skip env added done st fuel (by simpa using hf) hi hnr (by simpa using hb)
      (by simpa using hfuel)]
    cases st
    simp only [List.append_nil] at hf
    simp_all [passSpec]
  | cons e rest ih =>
    intro done added st fuel hf hi hnr hb hfuel
    cases fuel with
    | zero => simp at hfuel
    | succ f =>
      have hget : st.fds.get? st.i = some e := by
        rw [hf, hi]; exact get?_middle done rest added e
      have hlen : st.i + 1 < SIZE_MOD := by
        rw [hi]
        simp only [List.length_append, List.length_cons] at hb
        omega
      have hinc : sizeInc st.i = st.i + 1 := sizeInc_lt _ hlen
      rw [pollPass_step env f st e hget]
      by_cases hr : e.readable = true
      · by_cases hsv : e.fd = env.serverFd
        · have hnew : ∀ c : Int,
              ({ fd := c, events := POLLIN, revents := 0 } : PollFd).readable = false :=
            fun c => by simp [PollFd.readable]
          by_cases hc : env.acceptRes st.accepts ≥ 0
          · have hbody : pollBody env st e =
                { st with
                  fds := st.fds ++
                    [{ fd := env.acceptRes st.accepts, events := POLLIN, revents := 0 }],
                  accepts := st.accepts + 1,
                  trace := st.trace ++ [PollEvent.accept (env.acceptRes st.accepts)],
                  i := st.i + 1 } := by
              simp [pollBody, hr, hsv, hc, hinc]
            rw [hbody]
            rw [ih (done ++ [e])
              (added ++ [{ fd := env.acceptRes st.accepts, events := POLLIN, revents := 0 }])
              _ f (by simp [hf]) (by simp [hi])
              (by
                intro x hx
                rcases List.mem_append.mp hx with h | h
                · exact hnr x h
                · rw [List.mem_singleton.mp h]; exact hnew _)
              (by simp at hb ⊢; omega) (by simp at hfuel ⊢; omega)]
            simp [passSpec, hr, hsv, hc]
          · have hbody : pollBody env st e =
                { st with
                  accepts := st.accepts + 1,
                  trace := st.trace ++ [PollEvent.accept (env.acceptRes st.accepts)],
                  i := st.i + 1 } := by
              simp [pollBody, hr, hsv, hc, hinc]
            rw [hbody]
            rw [ih (done ++ [e]) added _ f (by simp [hf]) (by simp [hi]) hnr
              (by simp at hb ⊢; omega) (by simp at hfuel ⊢; omega)]
            simp [passSpec, hr, hsv, hc]
        · by_cases hn : env.readRes st.reads ≤ 0
          · have hback : sizeInc (sizeDec st.i) = st.i := sizeInc_sizeDec _ (by omega)
            have hbody : pollBody env st e =
                { st with
                  fds := done ++ rest ++ added,
                  reads := st.reads + 1,
                  trace := st.trace ++
                    [PollEvent.read e.fd (env.readRes st.reads), PollEvent.close e.fd],
                  erasedAt := st.erasedAt ++ [st.i],
                  i := st.i } := by
              have he : st.fds.eraseIdx st.i = done ++ rest ++ added := by
                rw [hf, hi]; exact eraseIdx_middle done rest added e
              simp [pollBody, hr, hsv, hn, hback, he]
            rw [hbody]
            rw [ih done added
              { st with
                fds := done ++ rest ++ added,
                reads := st.reads + 1,
                trace := st.trace ++
                  [PollEvent.read e.fd (env.readRes st.reads), PollEvent.close e.fd],
                erasedAt := st.erasedAt ++ [st.i],
                i := st.i } f rfl hi hnr (by simp at hb ⊢; omega)
              (by simp at hfuel ⊢; omega)]
            simp [passSpec, hr, hsv, hn, hi]
          · have hbody : pollBody env st e =
                { st with
                  reads := st.reads + 1,
                  trace := st.trace ++ [PollEvent.read e.fd (env.readRes st.reads)],
                  i := st.i + 1 } := by
              simp [pollBody, hr, hsv, hn, hinc]
            rw [hbody]
            rw [ih (done ++ [e]) added _ f (by simp [hf]) (by simp [hi]) hnr
              (by simp at hb ⊢; omega) (by simp at hfuel ⊢; omega)]
            simp [passSpec, hr, hsv, hn]
      · have hr : e.readable = false := by simpa using hr
        have hbody : pollBody env st e = { st with i := st.i + 1 } := by
          simp [pollBody, hr, hinc]
        rw [hbody]
        rw [ih (done ++ [e]) added { st with i := st.i + 1 } f (by simp [hf])
          (by simp [hi]) hnr (by simp at hb ⊢; omega) (by simp at hfuel ⊢; omega)]
        simp [passSpec, hr]

theorem passSpec_subjects (env : PollEnv) : ∀ (l : List PollFd) (pos a r : Nat),
    (passSpec env l pos a r).trace.filterMap PollEvent.subject =
      (l.filter PollFd.readable).map
        (fun e => if e.fd = env.serverFd then none else some e.fd) := by
  intro l
  induction l with
  | nil => intro pos a r; rfl
  | cons e rest ih =>
    intro pos a r
    by_cases hr : e.readable = true
    · by_cases hsv : e.fd = env.serverFd
      · simp [passSpec, hr, hsv, PollEvent.subject, ih]
      · by_cases hn : env.readRes r ≤ 0
        · simp [passSpec, hr, hsv, hn, PollEvent.subject, ih]
        · simp [passSpec, hr, hsv, hn, PollEvent.subject, ih]
    · have hr : e.readable = false := by simpa using hr
      simp [passSpec, hr, ih]

theorem passSpec_reads (env : PollEnv) : ∀ (l : List PollFd) (pos a r : Nat),
    (passSpec env l pos a r).trace.filterMap PollEvent.readInfo =
      ((l.filter (PollFd.isReader env)).enumFrom r).map
        (fun p => (p.2.fd, env.readRes p.1)) ∧
    (passSpec env l pos a r).trace.filterMap PollEvent.closedFd =
      (((l.filter (PollFd.isReader env)).enumFrom r).filter
        (fun p => decide (env.readRes p.1 ≤ 0))).map (fun p => p.2.fd) ∧
    (passSpec env l pos a r).erasedAt.length =
      ((passSpec env l pos a r).trace.filterMap PollEvent.closedFd).length := by
  intro l
  induction l with
  | nil => intro pos a r; simp [passSpec]
  | cons e rest ih =>
    intro pos a r
    by_cases hr : e.readable = true
    · by_cases hsv : e.fd = env.serverFd
      · have := ih (pos + 1) (a + 1) r
        simp [passSpec, hr, hsv, PollFd.isReader, PollEvent.readInfo, PollEvent.closedFd]
        simpa [PollFd.isReader] using this
      · by_cases hn : env.readRes r ≤ 0
        · have := ih pos a (r + 1)
          simp [passSpec, hr, hsv, hn, PollFd.isReader, PollEvent.readInfo,
            PollEvent.closedFd, List.enumFrom_cons]
          simpa [PollFd.isReader] using this
        · have := ih (pos + 1) a (r + 1)
          simp [passSpec, hr, hsv, hn, PollFd.isReader, PollEvent.readInfo,
            PollEvent.closedFd, List.enumFrom_cons]
          simpa [PollFd.isReader] using this
    · have hr : e.readable = false := by simpa using hr
      have := ih (pos + 1) a r
      simp [passSpec, hr, PollFd.isReader]
      simpa [PollFd.isReader] using this

theorem passSpec_erasedAt (env : PollEnv) : ∀ (l : List PollFd) (pos a r : Nat),
    ∀ idx ∈ (passSpec env l pos a r).erasedAt, pos ≤ idx := by
  intro l
  induction l with
  | nil => intro pos a r idx h; simp [passSpec] at h
  | cons e rest ih =>
    intro pos a r idx h
    by_cases hr : e.readable = true
    · by_cases hsv : e.fd = env.serverFd
      · simp only [passSpec, hr, hsv, if_true] at h
        have := ih _ _ _ idx h
        omega
      · by_cases hn : env.readRes r ≤ 0
        · simp only [passSpec, hr, hsv, hn, if_true, if_false, List.mem_cons] at h
          rcases h with h | h
          · omega
          · exact ih _ _ _ idx h
        · simp only [passSpec, hr, hsv, hn, if_true, if_false] at h
          have := ih _ _ _ idx h
          omega
    · have hr : e.readable = false := by simpa using hr
      simp only [passSpec, hr, Bool.false_eq_true, if_false] at h
      have := ih _ _ _ idx h
      omega

theorem passSpec_server_first (env : PollEnv) (e0 : PollFd) (rest : List PollFd)
    (pos a r : Nat) (h0 : e0.fd = env.serverFd) :
    (passSpec env (e0 :: rest) pos a r).kept.head? = some e0 ∧
    ∀ idx ∈ (passSpec env (e0 :: rest) pos a r).erasedAt, pos + 1 ≤ idx := by
  by_cases hr : e0.readable = true
  · simp only [passSpec, hr, h0, if_true, List.head?_cons, true_and]
    exact passSpec_erasedAt env rest _ _ _
  · have hr : e0.readable = false := by simpa using hr
    simp only [passSpec, hr, Bool.false_eq_true, if_false, List.head?_cons, true_and]
    exact passSpec_erasedAt env rest _ _ _

theorem passSpec_counts (env : PollEnv) : ∀ (l : List PollFd) (pos a r : Nat),
    (passSpec env l pos a r).kept.length + (passSpec env l pos a r).erasedAt.length
      = l.length ∧
    (passSpec env l pos a r).kept.Sublist l := by
  intro l
  induction l with
  | nil => intro pos a r; simp [passSpec]
  | cons e rest ih =>
    intro pos a r
    by_cases hr : e.readable = true
    · by_cases hsv : e.fd = env.serverFd
      · have := ih (pos + 1) (a + 1) r
        simp only [passSpec, hr, hsv, if_true, List.length_cons]
        exact ⟨by omega, this.2.cons₂ e⟩
      · by_cases hn : env.readRes r ≤ 0
        · have := ih pos a (r + 1)
          simp only [passSpec, hr, hsv, hn, if_true, if_false, List.length_cons]
          exact ⟨by omega, this.2.cons e⟩
        · have := ih (pos + 1) a (r + 1)
          simp only [passSpec, hr, hsv, hn, if_true, if_false, List.length_cons]
          exact ⟨by omega, this.2.cons₂ e⟩
    · have hr : e.readable = false := by simpa using hr
      have := ih (pos + 1) a r
      simp only [passSpec, hr, Bool.false_eq_true, if_false, List.length_cons]
      exact ⟨by omega, this.2.cons₂ e⟩

/-- C9: one pass of the `for` loop of `pollLoop` over any list of fewer than
2^63 entries ends (twice the length of the list is enough fuel) with the index
at the length of the list.  The entries handled (one `accept` for a readable
listening socket, one `read` for a readable connection) are the entries that
were readable at the start, each once and in list order, so none is skipped
after an erase.  The `read` calls are one per readable connection, in list
order, the `k`-th getting the `k`-th result; the descriptors closed (and
erased) are exactly those whose `read` returned zero or a negative value, and
there are as many erases as closes.  The final list, the calls and the erase
positions are those of the entry-by-entry description `passSpec`; the entries
kept are a sublist of the original ones.  When the listening socket is the
first entry, it is still the first entry afterwards and every erase happened
at an index above zero. -/
theorem C9_poll_pass (env : PollEnv) (fds : List PollFd) (fuel : Nat)
    (hb : 2 * fds.length < SIZE_MOD) (hfuel : 2 * fds.length ≤ fuel) :
    ∃ st, pollPass env fuel (pollStart fds) = some st ∧
      st.i = st.fds.length ∧
      st.trace.filterMap PollEvent.subject =
        (fds.filter PollFd.readable).map
          (fun e => if e.fd = env.serverFd then none else some e.fd) ∧
      st.trace.filterMap PollEvent.readInfo =
        ((fds.filter (PollFd.isReader env)).enumFrom 0).map
          (fun p => (p.2.fd, env.readRes p.1)) ∧
      st.trace.filterMap PollEvent.closedFd =
        (((fds.filter (PollFd.isReader env)).enumFrom 0).filter
          (fun p => decide (env.readRes p.1 ≤ 0))).map (fun p => p.2.fd) ∧
      st.erasedAt.length = (st.trace.filterMap PollEvent.closedFd).length ∧
      st.fds = (passSpec env fds 0 0 0).kept ++ (passSpec env fds 0 0 0).added ∧
      st.trace = (passSpec env fds 0 0 0).trace ∧
      st.erasedAt = (passSpec env fds 0 0 0).erasedAt ∧
      (passSpec env fds 0 0 0).kept.Sublist fds ∧
      (passSpec env fds 0 0 0).kept.length + st.erasedAt.length = fds.length ∧
      (∀ e0 rest, fds = e0 :: rest → e0.fd = env.serverFd →
        st.fds.head? = some e0 ∧ ∀ idx ∈ st.erasedAt, 0 < idx) := by
  have h := pollPass_spec env fds [] [] (pollStart fds) fuel (by simp [pollStart]) rfl
    (by simp) (by simp; omega) (by simp; omega)
  have hrd := passSpec_reads env fds 0 0 0
  refine ⟨_, h, ?_, ?_, ?_, ?_, ?_, ?_, ?_, ?_, ?_, ?_, ?_⟩
  · simp [pollStart]
  · simp only [pollStart, List.nil_append, List.length_nil]
    exact passSpec_subjects env fds 0 0 0
  · simp only [pollStart, List.nil_append, List.length_nil]
    exact hrd.1
  · simp only [pollStart, List.nil_append, List.length_nil]
    exact hrd.2.1
  · simp only [pollStart, List.nil_append, List.length_nil]
    exact hrd.2.2
  · simp [pollStart]
  · simp [pollStart]
  · simp [pollStart]
  · exact (passSpec_counts env fds 0 0 0).2
  · simp only [pollStart, List.nil_append, List.length_nil]
    exact (passSpec_counts env fds 0 0 0).1
  · intro e0 rest hfds h0
    subst hfds
    have hs := passSpec_server_first env e0 rest 0 0 0 h0
    simp only [pollStart, List.nil_append, List.length_nil, List.append_nil]
    constructor
    · cases hk : (passSpec env (e0 :: rest) 0 0 0).kept with
      | nil => rw [hk] at hs; simp at hs
      | cons x xs =>
        rw [hk] at hs
        simpa using hs.1
    · intro idx hidx
      have := hs.2 idx hidx
      omega

/-- Witness for C9: connection 4 is closed and erased at index 1; connection 5,
shifted down to index 1, is still read in the same pass; the accepted
descriptor 7 is appended and not read. -/
theorem C9_poll_pass_witness :
    2 * demoFds.length < SIZE_MOD ∧ 2 * demoFds.length ≤ 8 ∧
    pollPass demoEnv 8 (pollStart demoFds) = some
      { fds := [{ fd := 3, events := 1, revents := 1 }, { fd := 5, events := 1, revents := 1 },
                { fd := 6, events := 1, revents := 0 }, { fd := 7, events := 1, revents := 0 }],
        i := 4, accepts := 1, reads := 2,
        trace := [PollEvent.accept 7, PollEvent.read 4 0, PollEvent.close 4, PollEvent.read 5 5],
        erasedAt := [1] } ∧
    ∃ st, pollPass demoEnv 8 (pollStart demoFds) = some st ∧
      st.i = st.fds.length ∧
      st.trace.filterMap PollEvent.subject = [none, some 4, some 5] ∧
      st.trace.filterMap PollEvent.readInfo = [(4, 0), (5, 5)] ∧
      st.trace.filterMap PollEvent.closedFd = [4] ∧
      st.fds.head? = some { fd := 3, events := 1, revents := 1 } ∧
      ∀ idx ∈ st.erasedAt, 0 < idx := by
  refine ⟨by decide, by decide, by decide, ?_⟩
  obtain ⟨st, h, hi, hs, hr, hc, _, _, _, _, _, _, hfirst⟩ :=
    C9_poll_pass demoEnv demoFds 8 (by decide) (by decide)
  have h0 := hfirst { fd := 3, events := 1, revents := 1 } _ rfl rfl
  exact ⟨st, h, hi, hs.trans (by decide), hr.trans (by decide), hc.trans (by decide),
    h0.1, h0.2⟩
